import Mathlib

/-!
OpenHantek: samplerate limits, model specification and the DSO-2250 model.

A shallow embedding of

* `openhantek/src/hantekdso/modelspecification.h` (`Dso::RecordLength`,
  `Dso::ControlSamplerateLimits`, `Dso::ModelSpec`),
* `openhantek/src/hantekdso/models/modelDSO2250.cpp` (`ModelDSO2250`),
* `openhantek/src/scopesettings.h` (`DsoSettingsScopeVoltage`, `DsoSettingsScope`),

followed by the properties proved about them.

Conventions of the embedding.

* The arithmetic of `double` is embedded twice.
  `Dso.Binary64` is IEEE 754 binary64 arithmetic as the program runs it: every
  division is rounded to nearest with ties to even, results may be subnormal, overflow
  gives an infinity, and a division by zero gives an infinity or a NaN.  The round trip,
  the upper bound and the downsampler bound are proved about it.
  `Dso.ControlSamplerateLimits` holds the same functions in exact arithmetic: a C++
  `double` is read as a rational number (`ℚ`).  A division whose divisor
  is zero yields an infinity or a NaN in IEEE arithmetic, which no rational
  stands for; such a division has no value here (`none`).
* The fields `base` and `max` hold the rational value of a finite double.
* `unsigned` values are natural numbers; `UINT_MAX` is `2^32 - 1`.
* `std::vector` is `List`; `operator[]` outside the vector is undefined
  behaviour in C++ and has no value here (`none`).
-/

namespace Dso

/-- Largest value of a 32 bit `unsigned`. -/
def UINT_MAX : Nat := 4294967295

/-- Marker for the rolling record length: `constexpr static unsigned ROLL_RECORDLEN = UINT_MAX`. -/
def ROLL_RECORDLEN : Nat := UINT_MAX

/-- Record length together with its samplerate divider: `struct RecordLength`. -/
structure RecordLength where
  /-- Record length, `ROLL_RECORDLEN` means rolling. -/
  recordLength : Nat
  /-- Samplerate divider for this record length. -/
  bufferDivider : Nat
deriving DecidableEq, Repr

/-- Index into `ControlSamplerateLimits::recordLengths` (`RecordLengthID`, an unsigned). -/
abbrev RecordLengthID : Type := Nat

/-- Division of two doubles read as rationals: `a / b`.
A zero divisor has no rational result. -/
def divDouble (a b : ℚ) : Option ℚ :=
  if b = 0 then none else some (a / b)

/-- Samplerate limits used for calculations: `struct ControlSamplerateLimits`. -/
structure ControlSamplerateLimits where
  /-- The base for sample rate calculations. -/
  base : ℚ
  /-- The maximum sample rate. -/
  max : ℚ
  /-- The maximum downsampling ratio. -/
  maxDownsampler : Nat
  /-- Available record lengths. -/
  recordLengths : List RecordLength
deriving DecidableEq

namespace ControlSamplerateLimits

/-- Source: `return base / maxDownsampler / recordLengths[id].bufferDivider;` -/
def minSamplerate (l : ControlSamplerateLimits) (id : RecordLengthID) : Option ℚ := do
  let rl ← l.recordLengths[id]?
  let q ← divDouble l.base (l.maxDownsampler : ℚ)
  divDouble q (rl.bufferDivider : ℚ)

/-- Source, overload `samplerate(RecordLengthID, unsigned)`:
`return base / downsampler / recordLengths[id].bufferDivider;` -/
def samplerate (l : ControlSamplerateLimits) (id : RecordLengthID) (downsampler : Nat) :
    Option ℚ := do
  let rl ← l.recordLengths[id]?
  let q ← divDouble l.base (downsampler : ℚ)
  divDouble q (rl.bufferDivider : ℚ)

/-- Source, overload `samplerate(RecordLengthID, double)` (C++ overloads the name
`samplerate`; this is the one taking a record time):
`return recordLengths[id].bufferDivider / recordTime;` -/
def samplerateOfRecordTime (l : ControlSamplerateLimits) (id : RecordLengthID)
    (recordTime : ℚ) : Option ℚ := do
  let rl ← l.recordLengths[id]?
  divDouble (rl.bufferDivider : ℚ) recordTime

/-- Source: `return max / recordLengths[id].bufferDivider;` -/
def maxSamplerate (l : ControlSamplerateLimits) (id : RecordLengthID) : Option ℚ := do
  let rl ← l.recordLengths[id]?
  divDouble l.max (rl.bufferDivider : ℚ)

/-- Source: `return base / recordLengths[id].bufferDivider / samplerate;` -/
def computeDownsampler (l : ControlSamplerateLimits) (id : RecordLengthID) (samplerate : ℚ) :
    Option ℚ := do
  let rl ← l.recordLengths[id]?
  let q ← divDouble l.base (rl.bufferDivider : ℚ)
  divDouble q samplerate

end ControlSamplerateLimits


/-! ## Binary64 arithmetic

The divisions of `ControlSamplerateLimits` once more, now as the program performs them:
IEEE 754 binary64 divisions, rounded to nearest with ties to even, with subnormal
results, overflow to an infinity, and the special values. -/

namespace Binary64

/-- The integer nearest to `y`; of two equally near integers the even one. -/
def roundNearestEven (y : ℚ) : ℤ :=
  if y - ⌊y⌋ < 1 / 2 then ⌊y⌋
  else if 1 / 2 < y - ⌊y⌋ then ⌊y⌋ + 1
  else if ⌊y⌋ % 2 = 0 then ⌊y⌋ else ⌊y⌋ + 1

/-- Exponent of the spacing of binary64 numbers around the magnitude `q`: 52 below the
power of two at or under `q` (53 bit significand), and never under `-1074` (subnormal
range). -/
def quantumExponent (q : ℚ) : ℤ := max (Int.log 2 q - 52) (-1074)

/-- The magnitude `q ≥ 0` rounded to the nearest multiple of the spacing
`2 ^ quantumExponent q`, ties to even, before the overflow check. -/
def roundMagnitude (q : ℚ) : ℚ :=
  (roundNearestEven (q / 2 ^ quantumExponent q) : ℚ) * 2 ^ quantumExponent q

/-- A binary64 value in sign and magnitude form: a NaN, an infinity, or a finite value
(`magnitude ≥ 0`; the two zeros are `fin false 0` and `fin true 0`). -/
inductive Value where
  | nan
  | inf (negative : Bool)
  | fin (negative : Bool) (magnitude : ℚ)
deriving DecidableEq, Repr

/-- The binary64 value of an exact non-negative magnitude `q`: rounded to nearest, an
infinity when the rounded magnitude is `2^1024` or more. -/
def ofMagnitude (negative : Bool) (q : ℚ) : Value :=
  if roundMagnitude q < 2 ^ 1024 then Value.fin negative (roundMagnitude q)
  else Value.inf negative

/-- IEEE 754 division of binary64 values: `a / b` on doubles in C++.  A NaN operand
gives a NaN, as do `inf / inf` and `0 / 0`; the sign of any other result is the
exclusive or of the signs; a finite non-zero value divided by zero is an infinity, a
finite value divided by an infinity is a zero; otherwise the exact quotient of the
magnitudes is rounded. -/
def div : Value → Value → Value
  | Value.nan, _ => Value.nan
  | _, Value.nan => Value.nan
  | Value.inf _, Value.inf _ => Value.nan
  | Value.inf s, Value.fin t _ => Value.inf (xor s t)
  | Value.fin s _, Value.inf t => Value.fin (xor s t) 0
  | Value.fin s a, Value.fin t b =>
    if b = 0 then (if a = 0 then Value.nan else Value.inf (xor s t))
    else ofMagnitude (xor s t) (a / b)

/-- The binary64 value of a finite double held as a rational: its sign and magnitude. -/
def ofRat (q : ℚ) : Value := Value.fin (decide (q < 0)) |q|

/-- Conversion of an `unsigned` to `double`; exact, an unsigned being below `2^53`. -/
def ofNat (n : Nat) : Value := Value.fin false (n : ℚ)

/-- The rational `q` is the value of a finite binary64 number: rounding leaves its
magnitude unchanged and the magnitude is below `2^1024`. -/
def IsFinite (q : ℚ) : Prop := roundMagnitude |q| = |q| ∧ |q| < 2 ^ 1024

instance (q : ℚ) : Decidable (IsFinite q) := by
  unfold IsFinite
  exact inferInstance


/-- Source: `return base / maxDownsampler / recordLengths[id].bufferDivider;`
with binary64 divisions. -/
def minSamplerate (l : ControlSamplerateLimits) (id : RecordLengthID) : Option Value := do
  let rl ← l.recordLengths[id]?
  pure (div (div (ofRat l.base) (ofNat l.maxDownsampler)) (ofNat rl.bufferDivider))

/-- Source, overload `samplerate(RecordLengthID, unsigned)`:
`return base / downsampler / recordLengths[id].bufferDivider;` with binary64 divisions. -/
def samplerate (l : ControlSamplerateLimits) (id : RecordLengthID) (downsampler : Nat) :
    Option Value := do
  let rl ← l.recordLengths[id]?
  pure (div (div (ofRat l.base) (ofNat downsampler)) (ofNat rl.bufferDivider))

/-- Source, overload `samplerate(RecordLengthID, double)`:
`return recordLengths[id].bufferDivider / recordTime;` with a binary64 division. -/
def samplerateOfRecordTime (l : ControlSamplerateLimits) (id : RecordLengthID)
    (recordTime : Value) : Option Value := do
  let rl ← l.recordLengths[id]?
  pure (div (ofNat rl.bufferDivider) recordTime)

/-- Source: `return max / recordLengths[id].bufferDivider;` with a binary64 division. -/
def maxSamplerate (l : ControlSamplerateLimits) (id : RecordLengthID) : Option Value := do
  let rl ← l.recordLengths[id]?
  pure (div (ofRat l.max) (ofNat rl.bufferDivider))

/-- Source: `return base / recordLengths[id].bufferDivider / samplerate;`
with binary64 divisions. -/
def computeDownsampler (l : ControlSamplerateLimits) (id : RecordLengthID)
    (samplerate : Value) : Option Value := do
  let rl ← l.recordLengths[id]?
  pure (div (div (ofRat l.base) (ofNat rl.bufferDivider)) samplerate)

end Binary64

/-! ## Enumerations used by the model specification

The declarations of the enumerations (`enums.h`, `hantekprotocol/codes.h`) are not
among the source files.  Each enumeration is embedded as an inductive type whose
constructors are the enumerators the sources name; different enumerators are
different values. -/

/-- Modelled from the spec: the declaration of `DsoE::TriggerMode` (`enums.h`) is
missing.  The spec lists "trigger modes" among the legal option ranges; the constructors
are the enumerators named in `modelspecification.h`, `controlsettings.h` and
`scopesettings.h`. -/
inductive TriggerMode where
  | HARDWARE_SOFTWARE
  | WAIT_FORCE
  | SINGLE
  | NORMAL
deriving DecidableEq, Repr

/-- Modelled from the spec: the declaration of `DsoE::Coupling` (`enums.h`) is missing.
The spec lists "couplings" among the legal option ranges; the constructors are the
enumerators named in `modelspecification.h`. -/
inductive Coupling where
  | DC
  | AC
deriving DecidableEq, Repr

/-- Modelled from the spec: the declaration of `HantekE::BulkCode`
(`hantekprotocol/codes.h`) is missing.  The spec describes the command-code table as a
mapping "to a hardware opcode" in which "unset entries use a sentinel invalid value";
the constructors are the enumerators named in `modelspecification.h` and
`modelDSO2250.cpp`, `INVALID` being the sentinel. -/
inductive BulkCode where
  | FORCETRIGGER
  | STARTSAMPLING
  | ENABLETRIGGER
  | GETDATA
  | GETCAPTURESTATE
  | SETGAIN
  | BSETCHANNELS
  | CSETTRIGGERORSAMPLERATE
  | DSETBUFFER
  | ESETTRIGGERORSAMPLERATE
  | FSETBUFFER
  | INVALID
deriving DecidableEq, Repr

/-- Modelled from the spec: the declaration of `ControlCode`
(`hantekprotocol/codes.h`) is missing.  The spec speaks of "extra relay-control
commands" registered "keyed by opcode"; the constructors are the enumerators named in
`modelDSO2250.cpp`. -/
inductive ControlCode where
  | CONTROL_SETOFFSET
  | CONTROL_SETRELAYS
deriving DecidableEq, Repr

/-! ## `struct ModelSpec` -/

/-- Specification of the connected device: `struct ModelSpec`, with the fields that
have a default member initialiser in `modelspecification.h`. -/
structure ModelSpec where
  channels : Nat
  /-- Command for setting used channels. -/
  cmdSetChannels : BulkCode
  /-- Command for samplerate settings. -/
  cmdSetSamplerate : BulkCode
  /-- Command for buffer settings. -/
  cmdSetRecordLength : BulkCode
  /-- Command for trigger settings. -/
  cmdSetTrigger : BulkCode
  /-- Command for pretrigger settings. -/
  cmdSetPretrigger : BulkCode
  /-- Command for forcing a trigger event. -/
  cmdForceTrigger : BulkCode
  /-- Command for starting the sampling. -/
  cmdCaptureStart : BulkCode
  /-- Command for enabling the trigger. -/
  cmdTriggerEnabled : BulkCode
  /-- Command for retrieve sample data. -/
  cmdGetData : BulkCode
  /-- Command for retrieve the capture state. -/
  cmdGetCaptureState : BulkCode
  /-- Command for setting the gain. -/
  cmdSetGain : BulkCode
  /-- The limits for multi channel mode. -/
  normalSamplerate : ControlSamplerateLimits
  /-- The limits for single channel mode. -/
  fastrateSamplerate : ControlSamplerateLimits
  couplings : List Coupling
  triggerModes : List TriggerMode
  isFixedSamplerateDevice : Bool
  isSoftwareTriggerDevice : Bool
  useControlNoBulk : Bool
  supportsCaptureState : Bool
  supportsOffset : Bool
  supportsCouplingRelays : Bool
  supportsFastRate : Bool
  fixedUSBinLength : Int
  /-- Test signal amplitude in V. -/
  testSignalAmplitude : ℚ
deriving DecidableEq

namespace ModelSpec

/-- A freshly constructed `ModelSpec`: `ModelSpec(unsigned channels)`.  The header
only declares this constructor; every member with a default member initialiser
(`modelspecification.h`, lines 73-83, 91-93, 125-136) holds that initialiser, and
`channels` holds the argument. -/
def new (channels : Nat) : ModelSpec where
  channels := channels
  cmdSetChannels := BulkCode.INVALID
  cmdSetSamplerate := BulkCode.INVALID
  cmdSetRecordLength := BulkCode.INVALID
  cmdSetTrigger := BulkCode.INVALID
  cmdSetPretrigger := BulkCode.INVALID
  cmdForceTrigger := BulkCode.FORCETRIGGER
  cmdCaptureStart := BulkCode.STARTSAMPLING
  cmdTriggerEnabled := BulkCode.ENABLETRIGGER
  cmdGetData := BulkCode.GETDATA
  cmdGetCaptureState := BulkCode.GETCAPTURESTATE
  cmdSetGain := BulkCode.SETGAIN
  normalSamplerate := ⟨50000000, 50000000, 0, []⟩
  fastrateSamplerate := ⟨100000000, 100000000, 0, []⟩
  couplings := [Coupling.DC, Coupling.AC]
  triggerModes := [TriggerMode.HARDWARE_SOFTWARE, TriggerMode.WAIT_FORCE, TriggerMode.SINGLE]
  isFixedSamplerateDevice := false
  isSoftwareTriggerDevice := false
  useControlNoBulk := false
  supportsCaptureState := true
  supportsOffset := true
  supportsCouplingRelays := true
  supportsFastRate := true
  fixedUSBinLength := 0
  testSignalAmplitude := 1

/-- The iterator difference `std::find(first, last, value) - first`: the number of
elements in front of the first one equal to `value`, the length of the range when
there is none. -/
def findOffset {α : Type} [DecidableEq α] : List α → α → Nat
  | [], _ => 0
  | x :: xs, value => if x = value then 0 else findOffset xs value + 1

/-- Source:
`return int(std::find(triggerModes.begin(), triggerModes.end(), mode) - triggerModes.begin());`
The conversion to `int` keeps the value of every offset below `2^31`; vectors of
trigger modes are taken to be shorter than that. -/
def indexOfTriggerMode (m : ModelSpec) (mode : TriggerMode) : Int :=
  Int.ofNat (findOffset m.triggerModes mode)

end ModelSpec

/-! ## The DSO-2250 model (`modelDSO2250.cpp`) -/

/-- Samplerate limits as `modelDSO2250.cpp` fills them in
(`specification.samplerate.single` and `.multi`): the record lengths are plain
unsigned values, the dividers live in `specification.bufferDividers`. -/
structure SamplerateTable where
  base : ℚ
  max : ℚ
  maxDownsampler : Nat
  recordLengths : List Nat
deriving DecidableEq

/-- Pairs every record length of a table with the buffer divider of the same index,
`RecordLength(recordLength, bufferDivider)`, giving the `ControlSamplerateLimits` of
`modelspecification.h`. -/
def SamplerateTable.toLimits (t : SamplerateTable) (bufferDividers : List Nat) :
    ControlSamplerateLimits :=
  ⟨t.base, t.max, t.maxDownsampler, List.zipWith RecordLength.mk t.recordLengths bufferDividers⟩

/-- Gain level: `struct ControlSpecificationGainLevel`. -/
structure ControlSpecificationGainLevel where
  /-- The index of the selected gain on the hardware. -/
  gainIdentificator : Nat
  /-- Available voltage steps in V/screenheight. -/
  gain : ℚ
deriving DecidableEq

/-- Special trigger channel: `struct SpecialTriggerChannel`. -/
structure SpecialTriggerChannel where
  name : String
  hardwareID : Int
deriving DecidableEq

/-- Modelled from the spec: the declaration of `Dso::ControlSpecification`
(`controlspecification.h`) is missing.  The spec describes a per-model descriptor with a
command-code table, two sets of samplerate limits, buffer dividers, a gain table, a
calibration table, `sampleSize` and `specialTriggerChannels`; the fields are the members
of `specification` that the `ModelDSO2250` constructor assigns. -/
structure ControlSpecification where
  /-- Holds `specification.command.bulk.setRecordLength`. -/
  setRecordLength : BulkCode
  /-- Holds `specification.command.bulk.setChannels`. -/
  setChannels : BulkCode
  /-- Holds `specification.command.bulk.setSamplerate`. -/
  setSamplerate : BulkCode
  /-- Holds `specification.command.bulk.setTrigger`. -/
  setTrigger : BulkCode
  /-- Holds `specification.command.bulk.setPretrigger`. -/
  setPretrigger : BulkCode
  /-- Holds `specification.samplerate.single`. -/
  single : SamplerateTable
  /-- Holds `specification.samplerate.multi`. -/
  multi : SamplerateTable
  bufferDividers : List Nat
  /-- Holds `specification.voltageLimit[0]` and `specification.voltageLimit[1]`. -/
  voltageLimit : List (List ℚ)
  gain : List ControlSpecificationGainLevel
  sampleSize : Nat
  specialTriggerChannels : List SpecialTriggerChannel
deriving DecidableEq

namespace ModelDSO2250

/-- The specification after the constructor `ModelDSO2250::ModelDSO2250()` has run
(`modelDSO2250.cpp`, lines 9-29). -/
def specification : ControlSpecification where
  setRecordLength := BulkCode.DSETBUFFER
  setChannels := BulkCode.BSETCHANNELS
  setSamplerate := BulkCode.ESETTRIGGERORSAMPLERATE
  setTrigger := BulkCode.CSETTRIGGERORSAMPLERATE
  setPretrigger := BulkCode.FSETBUFFER
  single := ⟨100000000, 100000000, 65536, [UINT_MAX, 10240, 524288]⟩
  multi := ⟨200000000, 250000000, 65536, [UINT_MAX, 20480, 1048576]⟩
  bufferDividers := [1000, 1, 1]
  voltageLimit := [[255, 255, 255, 255, 255, 255, 255, 255, 255],
                   [255, 255, 255, 255, 255, 255, 255, 255, 255]]
  gain := [⟨0, 8 / 100⟩, ⟨2, 16 / 100⟩, ⟨3, 40 / 100⟩, ⟨0, 80 / 100⟩,
           ⟨2, 160 / 100⟩, ⟨3, 4⟩, ⟨0, 8⟩, ⟨2, 16⟩, ⟨3, 40⟩]
  sampleSize := 8
  specialTriggerChannels := [⟨"EXT", -2⟩]

/-- The DSO-2250 limits for single channel mode, every record length paired with its
buffer divider. -/
def singleLimits : ControlSamplerateLimits :=
  specification.single.toLimits specification.bufferDividers

/-- The DSO-2250 limits for multi channel mode, every record length paired with its
buffer divider. -/
def multiLimits : ControlSamplerateLimits :=
  specification.multi.toLimits specification.bufferDividers

/-- Key of the controller's command registry: `applyRequirements` calls `addCommand`
with a `BulkCode` or with a `ControlCode`. -/
inductive Opcode where
  | bulk (code : BulkCode)
  | control (code : ControlCode)
deriving DecidableEq, Repr

/-- The kind (class) of a command object held by the registry: the seven classes
`applyRequirements` instantiates, and `other` for any further command class the
controller may hold. -/
inductive CommandKind where
  | BulkSetChannels2250
  | BulkSetTrigger2250
  | BulkSetRecordLength2250
  | BulkSetSamplerate2250
  | BulkSetBuffer2250
  | ControlSetOffset
  | ControlSetRelays
  | other (tag : Nat)
deriving DecidableEq, Repr

/-- Modelled from the spec: the registry of `HantekDsoControl` is missing from the
source files.  The spec calls it the controller's "opcode→command registry": the command
kind installed for each opcode, if any. -/
abbrev Registry : Type := Opcode → Option CommandKind

/-- Modelled from the spec: `HantekDsoControl::addCommand` is missing from the source
files (only its calls in `modelDSO2250.cpp` are there).  The spec describes the
controller's "opcode→command registry" and registration as "keyed by opcode",
"registry overwrite, not append": the entry of `code` becomes `command`, every other
entry is kept. -/
def addCommand (code : Opcode) (command : CommandKind) (registry : Registry) : Registry :=
  fun c => if c = code then some command else registry c

/-- Source: `ModelDSO2250::applyRequirements(HantekDsoControl *dsoControl)`, the seven
`dsoControl->addCommand(...)` calls in their order, acting on the registry of
`dsoControl`. -/
def applyRequirements (dsoControl : Registry) : Registry :=
  let r1 := addCommand (Opcode.bulk BulkCode.BSETCHANNELS) CommandKind.BulkSetChannels2250 dsoControl
  let r2 := addCommand (Opcode.bulk BulkCode.CSETTRIGGERORSAMPLERATE) CommandKind.BulkSetTrigger2250 r1
  let r3 := addCommand (Opcode.bulk BulkCode.DSETBUFFER) CommandKind.BulkSetRecordLength2250 r2
  let r4 := addCommand (Opcode.bulk BulkCode.ESETTRIGGERORSAMPLERATE) CommandKind.BulkSetSamplerate2250 r3
  let r5 := addCommand (Opcode.bulk BulkCode.FSETBUFFER) CommandKind.BulkSetBuffer2250 r4
  let r6 := addCommand (Opcode.control ControlCode.CONTROL_SETOFFSET) CommandKind.ControlSetOffset r5
  addCommand (Opcode.control ControlCode.CONTROL_SETRELAYS) CommandKind.ControlSetRelays r6

/-- The opcodes `applyRequirements` passes to `addCommand`, in call order. -/
def registeredOpcodes : List Opcode :=
  [Opcode.bulk BulkCode.BSETCHANNELS, Opcode.bulk BulkCode.CSETTRIGGERORSAMPLERATE,
   Opcode.bulk BulkCode.DSETBUFFER, Opcode.bulk BulkCode.ESETTRIGGERORSAMPLERATE,
   Opcode.bulk BulkCode.FSETBUFFER, Opcode.control ControlCode.CONTROL_SETOFFSET,
   Opcode.control ControlCode.CONTROL_SETRELAYS]

/-- A registry without any command. -/
def emptyRegistry : Registry := fun _ => none

end ModelDSO2250

/-! ## Example inputs -/

/-- Limits of the worked example: `base = 100e6`, `maxDownsampler = 65536` and the
DSO-2250 record lengths with their dividers; `max` is left open. -/
def exampleLimits (max : ℚ) : ControlSamplerateLimits :=
  ⟨100000000, max, 65536, [⟨UINT_MAX, 1000⟩, ⟨10240, 1⟩, ⟨524288, 1⟩]⟩

/-- Limits whose base clock is above their maximum rate. -/
def baseAboveMaxLimits : ControlSamplerateLimits :=
  ⟨200000000, 100000000, 4, [⟨10240, 1⟩]⟩

/-- Limits with a downsampler bound of 3 and a single record length of divider 1000. -/
def thirdDownsamplerLimits : ControlSamplerateLimits :=
  ⟨100000000, 100000000, 3, [⟨UINT_MAX, 1000⟩]⟩

end Dso

/-! ## Scope settings (`scopesettings.h`) -/

/-- Settings for the normal voltage graphs: `struct DsoSettingsScopeVoltage`, every
member with its default member initialiser.  The anonymous union of `math`,
`couplingIndex` and `rawValue` is held as the `couplingIndex` it is initialised
through. -/
structure DsoSettingsScopeVoltage where
  /-- The vertical resolution in V/div (default = 1.0). -/
  gainStepIndex : Nat := 6
  /-- True if the channel is inverted. -/
  inverted : Bool := false
  /-- Coupling for real channels, mode for math channels. -/
  couplingIndex : Nat := 0
  /-- Name of this channel. -/
  name : String := ""
  /-- Vertical offset in divs. -/
  offset : ℚ := 0
  /-- Trigger level in V. -/
  trigger : ℚ := 0
  /-- True if this channel is enabled. -/
  used : Bool := false
deriving DecidableEq

/-- Settings for the oscilloscope: `struct DsoSettingsScope`, with the members `gain`
reads (`gainSteps`, `voltage`) and the two plain levels, each with its default member
initialiser. -/
structure DsoSettingsScope where
  /-- The selectable voltage gain steps in V/div. -/
  gainSteps : List ℚ := [1 / 100, 2 / 100, 5 / 100, 1 / 10, 2 / 10, 5 / 10, 1, 2, 5]
  /-- Settings for the normal graphs. -/
  voltage : List DsoSettingsScopeVoltage := []
  /-- Reference level for spectrum in dBm. -/
  spectrumReference : ℚ := 0
  /-- Minimum magnitude of the spectrum. -/
  spectrumLimit : ℚ := -20
deriving DecidableEq

/-- Source: `double gain(unsigned channel) const`,
`return gainSteps[voltage[channel].gainStepIndex];` -/
def DsoSettingsScope.gain (s : DsoSettingsScope) (channel : Nat) : Option ℚ := do
  let v ← s.voltage[channel]?
  s.gainSteps[v.gainStepIndex]?

open Dso ControlSamplerateLimits

/-! ## Helper lemmas -/

theorem divDouble_of_ne_zero (a b : ℚ) (h : b ≠ 0) : divDouble a b = some (a / b) := by
  simp [divDouble, h]

theorem natCast_ne_zero_of_pos {n : Nat} (h : 0 < n) : (n : ℚ) ≠ 0 := by
  have : (0 : ℚ) < n := by exact_mod_cast h
  exact ne_of_gt this

theorem samplerate_eq_some (l : ControlSamplerateLimits) (id : RecordLengthID) (d : Nat)
    (hid : id < l.recordLengths.length) (hdiv : 0 < l.recordLengths[id].bufferDivider)
    (hd : 0 < d) :
    l.samplerate id d = some (l.base / d / l.recordLengths[id].bufferDivider) := by
  simp [samplerate, List.getElem?_eq_getElem hid,
    divDouble_of_ne_zero _ _ (natCast_ne_zero_of_pos hd),
    divDouble_of_ne_zero _ _ (natCast_ne_zero_of_pos hdiv)]

theorem minSamplerate_eq_some (l : ControlSamplerateLimits) (id : RecordLengthID)
    (hid : id < l.recordLengths.length) (hdiv : 0 < l.recordLengths[id].bufferDivider)
    (hmd : 0 < l.maxDownsampler) :
    l.minSamplerate id
      = some (l.base / l.maxDownsampler / l.recordLengths[id].bufferDivider) := by
  simp [minSamplerate, List.getElem?_eq_getElem hid,
    divDouble_of_ne_zero _ _ (natCast_ne_zero_of_pos hmd),
    divDouble_of_ne_zero _ _ (natCast_ne_zero_of_pos hdiv)]

theorem maxSamplerate_eq_some (l : ControlSamplerateLimits) (id : RecordLengthID)
    (hid : id < l.recordLengths.length) (hdiv : 0 < l.recordLengths[id].bufferDivider) :
    l.maxSamplerate id = some (l.max / l.recordLengths[id].bufferDivider) := by
  simp [maxSamplerate, List.getElem?_eq_getElem hid,
    divDouble_of_ne_zero _ _ (natCast_ne_zero_of_pos hdiv)]

theorem computeDownsampler_eq_some (l : ControlSamplerateLimits) (id : RecordLengthID) (r : ℚ)
    (hid : id < l.recordLengths.length) (hdiv : 0 < l.recordLengths[id].bufferDivider)
    (hr : r ≠ 0) :
    l.computeDownsampler id r = some (l.base / l.recordLengths[id].bufferDivider / r) := by
  simp [computeDownsampler, List.getElem?_eq_getElem hid,
    divDouble_of_ne_zero _ _ hr, divDouble_of_ne_zero _ _ (natCast_ne_zero_of_pos hdiv)]

/-! ## Samplerate limits -/

/-- C2. Worked example: the limits `base = 100e6`, `maxDownsampler = 65536`,
`recordLengths = [(UINT_MAX, 1000), (10240, 1), (524288, 1)]` are the DSO-2250 `single`
table paired with its `bufferDividers`; for them `computeDownsampler(1, 50e6) = 2`,
`samplerate(1, 2) = 50e6`, and `2` lies in `[1, 65536]`. -/
theorem dso2250_single_worked_example :
    ModelDSO2250.specification.single.toLimits ModelDSO2250.specification.bufferDividers
        = exampleLimits 100000000
      ∧ ∀ max : ℚ,
          (exampleLimits max).computeDownsampler 1 50000000 = some 2
          ∧ (exampleLimits max).samplerate 1 2 = some 50000000
          ∧ 1 ≤ 2 ∧ 2 ≤ (exampleLimits max).maxDownsampler := by
  refine ⟨by simp [SamplerateTable.toLimits, ModelDSO2250.specification, exampleLimits], ?_⟩
  intro max
  refine ⟨?_, ?_, by decide, by simp [exampleLimits]⟩
  · simp [computeDownsampler, exampleLimits, divDouble]
    norm_num
  · simp [samplerate, exampleLimits, divDouble]
    norm_num

/-- C3. Lower bound: with `base ≥ 0`, `maxDownsampler ≥ 1`, an id in range whose
`bufferDivider` is positive and `1 ≤ d ≤ maxDownsampler`, both `samplerate(id, d)` and
`minSamplerate(id)` have a value, `minSamplerate(id) ≤ samplerate(id, d)`, the two are
equal when `d = maxDownsampler`, and `minSamplerate(id) = samplerate(id, maxDownsampler)`. -/
theorem minSamplerate_le_samplerate (l : ControlSamplerateLimits) (id : RecordLengthID)
    (d : Nat) (hbase : 0 ≤ l.base) (hmd : 1 ≤ l.maxDownsampler)
    (hid : id < l.recordLengths.length) (hdiv : 0 < l.recordLengths[id].bufferDivider)
    (hd1 : 1 ≤ d) (hd2 : d ≤ l.maxDownsampler) :
    ∃ s m, l.samplerate id d = some s ∧ l.minSamplerate id = some m ∧ m ≤ s
      ∧ (d = l.maxDownsampler → s = m)
      ∧ l.minSamplerate id = l.samplerate id l.maxDownsampler := by
  have hd0 : (0 : ℚ) < d := by exact_mod_cast hd1
  have hb0 : (0 : ℚ) < l.recordLengths[id].bufferDivider := by exact_mod_cast hdiv
  have hdm : (d : ℚ) ≤ l.maxDownsampler := by exact_mod_cast hd2
  refine ⟨_, _, samplerate_eq_some l id d hid hdiv hd1,
    minSamplerate_eq_some l id hid hdiv hmd, ?_, ?_, ?_⟩
  · apply div_le_div_of_nonneg_right _ (le_of_lt hb0)
    exact div_le_div_of_nonneg_left hbase hd0 hdm
  · intro h
    rw [h]
  · rw [minSamplerate_eq_some l id hid hdiv hmd, samplerate_eq_some l id _ hid hdiv hmd]

/-- C6. Duration-driven rate: for an id in range and `recordTime > 0`,
`samplerate(id, recordTime) = recordLengths[id].bufferDivider / recordTime`, and any
other limits with the same `recordLengths` (whatever their `base`, `max` and
`maxDownsampler`) return the same value. -/
theorem samplerateOfRecordTime_eq (l : ControlSamplerateLimits) (id : RecordLengthID)
    (recordTime : ℚ) (hid : id < l.recordLengths.length) (ht : 0 < recordTime) :
    l.samplerateOfRecordTime id recordTime
        = some ((l.recordLengths[id].bufferDivider : ℚ) / recordTime)
      ∧ ∀ (base max : ℚ) (maxDownsampler : Nat),
          (ControlSamplerateLimits.mk base max maxDownsampler
              l.recordLengths).samplerateOfRecordTime id recordTime
            = l.samplerateOfRecordTime id recordTime := by
  constructor
  · simp [samplerateOfRecordTime, List.getElem?_eq_getElem hid,
      divDouble_of_ne_zero _ _ (ne_of_gt ht)]
  · intro base max maxDownsampler
    simp [samplerateOfRecordTime]

/-! ## Model specification -/

theorem findOffset_le_length {α : Type} [DecidableEq α] (xs : List α) (v : α) :
    ModelSpec.findOffset xs v ≤ xs.length := by
  induction xs with
  | nil => simp [ModelSpec.findOffset]
  | cons x xs ih =>
    by_cases h : x = v
    · simp [ModelSpec.findOffset, h]
    · simp [ModelSpec.findOffset, h, ih]

theorem findOffset_of_mem {α : Type} [DecidableEq α] (xs : List α) (v : α) (hv : v ∈ xs) :
    ModelSpec.findOffset xs v < xs.length ∧ xs[ModelSpec.findOffset xs v]? = some v := by
  induction xs with
  | nil => simp at hv
  | cons x xs ih =>
    by_cases h : x = v
    · simp [ModelSpec.findOffset, h]
    · have hv2 : v ∈ xs := by
        rcases List.mem_cons.mp hv with h1 | h1
        · exact absurd h1.symm h
        · exact h1
      obtain ⟨h1, h2⟩ := ih hv2
      refine ⟨by simpa [ModelSpec.findOffset, h] using h1, ?_⟩
      simpa [ModelSpec.findOffset, h] using h2

theorem findOffset_before {α : Type} [DecidableEq α] (xs : List α) (v : α) (j : Nat)
    (hj : j < ModelSpec.findOffset xs v) : xs[j]? ≠ some v := by
  induction xs generalizing j with
  | nil => simp [ModelSpec.findOffset] at hj
  | cons x xs ih =>
    by_cases h : x = v
    · simp [ModelSpec.findOffset, h] at hj
    · cases j with
      | zero => simpa using h
      | succ j =>
        simp only [ModelSpec.findOffset, h, if_false, Nat.add_lt_add_iff_right] at hj
        simpa using ih j hj

theorem findOffset_of_not_mem {α : Type} [DecidableEq α] (xs : List α) (v : α)
    (hv : v ∉ xs) : ModelSpec.findOffset xs v = xs.length := by
  induction xs with
  | nil => simp [ModelSpec.findOffset]
  | cons x xs ih =>
    have h : ¬ x = v := fun e => hv (by simp [e])
    have hv2 : v ∉ xs := fun e => hv (List.mem_cons_of_mem _ e)
    simp [ModelSpec.findOffset, h, ih hv2]

/-- C7. `indexOfTriggerMode(mode)` lies in `[0, size]`; when `mode` occurs in
`triggerModes` it is the index of the first occurrence (the entry at the result is
`mode` and no earlier entry is); when `mode` does not occur it is exactly the size.
For the default list of a fresh `ModelSpec` the modes `HARDWARE_SOFTWARE`,
`WAIT_FORCE`, `SINGLE` map to 0, 1, 2 and the remaining mode maps to 3. -/
theorem indexOfTriggerMode_spec (m : ModelSpec) (mode : TriggerMode) :
    (0 ≤ m.indexOfTriggerMode mode
      ∧ m.indexOfTriggerMode mode ≤ (m.triggerModes.length : Int))
    ∧ (mode ∈ m.triggerModes →
        ∃ i : Nat, m.indexOfTriggerMode mode = (i : Int) ∧ i < m.triggerModes.length
          ∧ m.triggerModes[i]? = some mode
          ∧ ∀ j : Nat, j < i → m.triggerModes[j]? ≠ some mode)
    ∧ (mode ∉ m.triggerModes → m.indexOfTriggerMode mode = (m.triggerModes.length : Int))
    ∧ (∀ channels : Nat,
        (ModelSpec.new channels).indexOfTriggerMode TriggerMode.HARDWARE_SOFTWARE = 0
        ∧ (ModelSpec.new channels).indexOfTriggerMode TriggerMode.WAIT_FORCE = 1
        ∧ (ModelSpec.new channels).indexOfTriggerMode TriggerMode.SINGLE = 2
        ∧ ∀ other : TriggerMode, other ≠ TriggerMode.HARDWARE_SOFTWARE →
            other ≠ TriggerMode.WAIT_FORCE → other ≠ TriggerMode.SINGLE →
            (ModelSpec.new channels).indexOfTriggerMode other = 3) := by
  refine ⟨⟨?_, ?_⟩, ?_, ?_, ?_⟩
  · exact Int.ofNat_nonneg _
  · exact Int.ofNat_le.mpr (findOffset_le_length _ _)
  · intro hmem
    obtain ⟨hlt, hget⟩ := findOffset_of_mem m.triggerModes mode hmem
    exact ⟨_, rfl, hlt, hget, fun j hj => findOffset_before _ _ j hj⟩
  · intro hnot
    simp [ModelSpec.indexOfTriggerMode, findOffset_of_not_mem _ _ hnot]
  · intro channels
    refine ⟨rfl, rfl, rfl, ?_⟩
    intro other h1 h2 h3
    cases other
    · exact absurd rfl h1
    · exact absurd rfl h2
    · exact absurd rfl h3
    · rfl

/-- C9. Command-table defaults of a freshly constructed `ModelSpec`: the five
model-specific entries hold `BulkCode::INVALID`, the six common entries hold
`FORCETRIGGER`, `STARTSAMPLING`, `ENABLETRIGGER`, `GETDATA`, `GETCAPTURESTATE` and
`SETGAIN`, and none of these six is `INVALID`. -/
theorem modelSpec_default_command_table (channels : Nat) :
    ((ModelSpec.new channels).cmdSetChannels = BulkCode.INVALID
      ∧ (ModelSpec.new channels).cmdSetSamplerate = BulkCode.INVALID
      ∧ (ModelSpec.new channels).cmdSetRecordLength = BulkCode.INVALID
      ∧ (ModelSpec.new channels).cmdSetTrigger = BulkCode.INVALID
      ∧ (ModelSpec.new channels).cmdSetPretrigger = BulkCode.INVALID)
    ∧ ((ModelSpec.new channels).cmdForceTrigger = BulkCode.FORCETRIGGER
      ∧ (ModelSpec.new channels).cmdCaptureStart = BulkCode.STARTSAMPLING
      ∧ (ModelSpec.new channels).cmdTriggerEnabled = BulkCode.ENABLETRIGGER
      ∧ (ModelSpec.new channels).cmdGetData = BulkCode.GETDATA
      ∧ (ModelSpec.new channels).cmdGetCaptureState = BulkCode.GETCAPTURESTATE
      ∧ (ModelSpec.new channels).cmdSetGain = BulkCode.SETGAIN)
    ∧ ((ModelSpec.new channels).cmdForceTrigger ≠ BulkCode.INVALID
      ∧ (ModelSpec.new channels).cmdCaptureStart ≠ BulkCode.INVALID
      ∧ (ModelSpec.new channels).cmdTriggerEnabled ≠ BulkCode.INVALID
      ∧ (ModelSpec.new channels).cmdGetData ≠ BulkCode.INVALID
      ∧ (ModelSpec.new channels).cmdGetCaptureState ≠ BulkCode.INVALID
      ∧ (ModelSpec.new channels).cmdSetGain ≠ BulkCode.INVALID) := by
  simp [ModelSpec.new]

/-! ## DSO-2250 command registry -/

/-- C8. `applyRequirements` is idempotent on the opcode→command-kind registry: running
it twice from any registry gives the registry of running it once, and the entry of every
opcode that is not one of the seven it registers is left as it was. -/
theorem applyRequirements_idempotent (registry : ModelDSO2250.Registry) :
    ModelDSO2250.applyRequirements (ModelDSO2250.applyRequirements registry)
        = ModelDSO2250.applyRequirements registry
      ∧ ∀ code : ModelDSO2250.Opcode, code ∉ ModelDSO2250.registeredOpcodes →
          ModelDSO2250.applyRequirements registry code = registry code := by
  constructor
  · funext code
    simp only [ModelDSO2250.applyRequirements, ModelDSO2250.addCommand]
    split_ifs <;> rfl
  · intro code hcode
    simp only [ModelDSO2250.registeredOpcodes, List.mem_cons, List.mem_singleton,
      List.not_mem_nil, or_false, not_or] at hcode
    obtain ⟨h1, h2, h3, h4, h5, h6, h7⟩ := hcode
    simp [ModelDSO2250.applyRequirements, ModelDSO2250.addCommand, h1, h2, h3, h4, h5, h6, h7]

/-- C10. DSO-2250 table/registry consistency: each of the five bulk opcodes the
constructor writes into the command table is registered by `applyRequirements`; after
`applyRequirements`, from any registry, `setRecordLength`, `setChannels`,
`setSamplerate`, `setTrigger` and `setPretrigger` resolve to `BulkSetRecordLength2250`,
`BulkSetChannels2250`, `BulkSetSamplerate2250`, `BulkSetTrigger2250` and
`BulkSetBuffer2250`; the five opcodes are pairwise distinct, and so are the seven
registered opcodes. -/
theorem dso2250_command_table_resolves (registry : ModelDSO2250.Registry) :
    (ModelDSO2250.specification.setRecordLength = BulkCode.DSETBUFFER
      ∧ ModelDSO2250.specification.setChannels = BulkCode.BSETCHANNELS
      ∧ ModelDSO2250.specification.setSamplerate = BulkCode.ESETTRIGGERORSAMPLERATE
      ∧ ModelDSO2250.specification.setTrigger = BulkCode.CSETTRIGGERORSAMPLERATE
      ∧ ModelDSO2250.specification.setPretrigger = BulkCode.FSETBUFFER)
    ∧ (∀ code ∈ [ModelDSO2250.specification.setRecordLength,
          ModelDSO2250.specification.setChannels, ModelDSO2250.specification.setSamplerate,
          ModelDSO2250.specification.setTrigger, ModelDSO2250.specification.setPretrigger],
        ModelDSO2250.Opcode.bulk code ∈ ModelDSO2250.registeredOpcodes)
    ∧ (ModelDSO2250.applyRequirements registry
          (ModelDSO2250.Opcode.bulk ModelDSO2250.specification.setRecordLength)
        = some ModelDSO2250.CommandKind.BulkSetRecordLength2250
      ∧ ModelDSO2250.applyRequirements registry
          (ModelDSO2250.Opcode.bulk ModelDSO2250.specification.setChannels)
        = some ModelDSO2250.CommandKind.BulkSetChannels2250
      ∧ ModelDSO2250.applyRequirements registry
          (ModelDSO2250.Opcode.bulk ModelDSO2250.specification.setSamplerate)
        = some ModelDSO2250.CommandKind.BulkSetSamplerate2250
      ∧ ModelDSO2250.applyRequirements registry
          (ModelDSO2250.Opcode.bulk ModelDSO2250.specification.setTrigger)
        = some ModelDSO2250.CommandKind.BulkSetTrigger2250
      ∧ ModelDSO2250.applyRequirements registry
          (ModelDSO2250.Opcode.bulk ModelDSO2250.specification.setPretrigger)
        = some ModelDSO2250.CommandKind.BulkSetBuffer2250)
    ∧ [ModelDSO2250.specification.setRecordLength,
          ModelDSO2250.specification.setChannels, ModelDSO2250.specification.setSamplerate,
          ModelDSO2250.specification.setTrigger,
          ModelDSO2250.specification.setPretrigger].Nodup
    ∧ ModelDSO2250.registeredOpcodes.Nodup := by
  refine ⟨by simp [ModelDSO2250.specification], by decide, ?_, by decide, by decide⟩
  simp [ModelDSO2250.applyRequirements, ModelDSO2250.addCommand, ModelDSO2250.specification]

/-- C3 at the DSO-2250 multi channel limits, id 0 (divider 1000), downsampler 4. -/
theorem minSamplerate_le_samplerate_witness :
    ∃ s m, ModelDSO2250.multiLimits.samplerate 0 4 = some s
      ∧ ModelDSO2250.multiLimits.minSamplerate 0 = some m ∧ m ≤ s
      ∧ (4 = ModelDSO2250.multiLimits.maxDownsampler → s = m)
      ∧ ModelDSO2250.multiLimits.minSamplerate 0
          = ModelDSO2250.multiLimits.samplerate 0 ModelDSO2250.multiLimits.maxDownsampler :=
  minSamplerate_le_samplerate ModelDSO2250.multiLimits 0 4
    (by norm_num [ModelDSO2250.multiLimits, ModelDSO2250.specification,
      SamplerateTable.toLimits])
    (by decide) (by decide) (by decide) (by decide) (by decide)

/-- C6 at the DSO-2250 single channel limits, id 0 (divider 1000), record time 1/100 s. -/
theorem samplerateOfRecordTime_eq_witness :
    ModelDSO2250.singleLimits.samplerateOfRecordTime 0 (1 / 100)
        = some (((ModelDSO2250.singleLimits.recordLengths.get ⟨0, by decide⟩).bufferDivider : ℚ)
            / (1 / 100))
      ∧ ∀ (base max : ℚ) (maxDownsampler : Nat),
          (ControlSamplerateLimits.mk base max maxDownsampler
              ModelDSO2250.singleLimits.recordLengths).samplerateOfRecordTime 0 (1 / 100)
            = ModelDSO2250.singleLimits.samplerateOfRecordTime 0 (1 / 100) :=
  samplerateOfRecordTime_eq ModelDSO2250.singleLimits 0 (1 / 100) (by decide) (by norm_num)

/-! ## DSO-2250 tables -/

theorem limits_defined_of_table (l : ControlSamplerateLimits) (n : Nat)
    (hn : l.recordLengths.length = n) (hb : ∀ rl ∈ l.recordLengths, 0 < rl.bufferDivider)
    (hm : 0 < l.maxDownsampler) (id : RecordLengthID) (hid : id < n) :
    (l.minSamplerate id).isSome ∧ (l.maxSamplerate id).isSome
      ∧ (∀ d : Nat, 1 ≤ d → (l.samplerate id d).isSome)
      ∧ (∀ r : ℚ, 0 < r → (l.computeDownsampler id r).isSome) := by
  have hid2 : id < l.recordLengths.length := by rw [hn]; exact hid
  have hdiv : 0 < l.recordLengths[id].bufferDivider := hb _ (List.getElem_mem hid2)
  refine ⟨?_, ?_, ?_, ?_⟩
  · rw [minSamplerate_eq_some l id hid2 hdiv hm]; rfl
  · rw [maxSamplerate_eq_some l id hid2 hdiv]; rfl
  · intro d hd
    rw [samplerate_eq_some l id d hid2 hdiv hd]; rfl
  · intro r hr
    rw [computeDownsampler_eq_some l id r hid2 hdiv (ne_of_gt hr)]; rfl

/-- C11, as stated, fails for `samplerate`: in the DSO-2250 single table, id 1 is one of
the ids 0, 1, 2 and its divider is 1, yet `samplerate(1, 0)` divides `base` by the
downsampler 0 and has no value. -/
theorem dso2250_samplerate_zero_downsampler :
    (1 : Nat) < ModelDSO2250.singleLimits.recordLengths.length
      ∧ ModelDSO2250.singleLimits.recordLengths[1]? = some ⟨10240, 1⟩
      ∧ divDouble ModelDSO2250.singleLimits.base ((0 : Nat) : ℚ) = none
      ∧ ModelDSO2250.singleLimits.samplerate 1 0 = none := by
  refine ⟨by decide, by decide, ?_, ?_⟩
  · simp [divDouble]
  · simp [samplerate, divDouble]

/-- C11, amended. The DSO-2250 limit tables are well-formed: in both the `single` and the
`multi` table entry 0 of `recordLengths` is `UINT_MAX = ROLL_RECORDLEN` and no other
entry is; `bufferDividers` and both `recordLengths` lists have length 3; every
`bufferDivider` and both `maxDownsampler` values are positive; hence for every id in
0, 1, 2 and both tables `minSamplerate(id)`, `maxSamplerate(id)`,
`samplerate(id, downsampler)` for `downsampler ≥ 1` and `computeDownsampler(id, samplerate)`
for `samplerate > 0` have a value, no divisor being zero. -/
theorem dso2250_limit_tables_wellformed :
    (UINT_MAX = ROLL_RECORDLEN
      ∧ ModelDSO2250.specification.single.recordLengths[0]? = some ROLL_RECORDLEN
      ∧ ModelDSO2250.specification.multi.recordLengths[0]? = some ROLL_RECORDLEN
      ∧ ∀ i : Nat, i ≠ 0 →
          ModelDSO2250.specification.single.recordLengths[i]? ≠ some ROLL_RECORDLEN
          ∧ ModelDSO2250.specification.multi.recordLengths[i]? ≠ some ROLL_RECORDLEN)
    ∧ (ModelDSO2250.specification.bufferDividers.length = 3
      ∧ ModelDSO2250.specification.single.recordLengths.length = 3
      ∧ ModelDSO2250.specification.multi.recordLengths.length = 3)
    ∧ ((∀ b ∈ ModelDSO2250.specification.bufferDividers, 0 < b)
      ∧ 0 < ModelDSO2250.specification.single.maxDownsampler
      ∧ 0 < ModelDSO2250.specification.multi.maxDownsampler)
    ∧ (∀ l ∈ [ModelDSO2250.singleLimits, ModelDSO2250.multiLimits],
        ∀ id : RecordLengthID, id < 3 →
          (l.minSamplerate id).isSome ∧ (l.maxSamplerate id).isSome
          ∧ (∀ d : Nat, 1 ≤ d → (l.samplerate id d).isSome)
          ∧ (∀ r : ℚ, 0 < r → (l.computeDownsampler id r).isSome)) := by
  refine ⟨⟨rfl, by decide, by decide, ?_⟩, ⟨by decide, by decide, by decide⟩,
    ⟨by decide, by decide, by decide⟩, ?_⟩
  · intro i hi
    rcases i with _ | _ | _ | i
    · exact absurd rfl hi
    · exact ⟨by decide, by decide⟩
    · exact ⟨by decide, by decide⟩
    · constructor <;> simp [ModelDSO2250.specification]
  · intro l hl id hid
    simp only [List.mem_cons, List.mem_singleton, List.not_mem_nil, or_false] at hl
    rcases hl with rfl | rfl
    · exact limits_defined_of_table ModelDSO2250.singleLimits 3 (by decide) (by decide)
        (by decide) id hid
    · exact limits_defined_of_table ModelDSO2250.multiLimits 3 (by decide) (by decide)
        (by decide) id hid

/-! ## DSO-2250 gain and calibration tables -/

/-- C12. The DSO-2250 gain table has 9 steps; `voltageLimit` holds a list for each of the
two channels, each with 9 entries, all 255; the gain values are
0.08, 0.16, 0.40, 0.80, 1.60, 4.00, 8.00, 16.00, 40.00, strictly increasing with the step
index; so every index valid for the gain table is a valid index into each channel's
`voltageLimit` list. -/
theorem dso2250_gain_tables_line_up :
    ModelDSO2250.specification.gain.length = 9
    ∧ ModelDSO2250.specification.voltageLimit.length = 2
    ∧ (∀ limits ∈ ModelDSO2250.specification.voltageLimit,
        limits.length = ModelDSO2250.specification.gain.length
        ∧ limits.length = 9 ∧ ∀ x ∈ limits, x = 255)
    ∧ ModelDSO2250.specification.gain.map ControlSpecificationGainLevel.gain
        = [8 / 100, 16 / 100, 40 / 100, 80 / 100, 160 / 100, 4, 8, 16, 40]
    ∧ (ModelDSO2250.specification.gain.map ControlSpecificationGainLevel.gain).Pairwise
        (fun a b => a < b)
    ∧ (∀ (i j : Nat) (hi : i < ModelDSO2250.specification.gain.length)
        (hj : j < ModelDSO2250.specification.gain.length), i < j →
        (ModelDSO2250.specification.gain.get ⟨i, hi⟩).gain
          < (ModelDSO2250.specification.gain.get ⟨j, hj⟩).gain)
    ∧ (∀ step : Nat, step < ModelDSO2250.specification.gain.length →
        ∀ limits ∈ ModelDSO2250.specification.voltageLimit, step < limits.length) := by
  have hlen : ∀ limits ∈ ModelDSO2250.specification.voltageLimit,
      limits.length = 9 ∧ ∀ x ∈ limits, x = 255 := by
    intro limits hl
    simp only [ModelDSO2250.specification, List.mem_cons, List.mem_singleton,
      List.not_mem_nil, or_false, or_self] at hl
    subst hl
    exact ⟨rfl, by simp⟩
  have hpair : (ModelDSO2250.specification.gain.map ControlSpecificationGainLevel.gain).Pairwise
      (fun a b => a < b) := by
    simp only [ModelDSO2250.specification, List.map_cons, List.map_nil, List.pairwise_cons,
      List.mem_cons, List.mem_singleton, List.not_mem_nil, List.Pairwise.nil, forall_eq_or_imp,
      forall_eq]
    norm_num
  refine ⟨rfl, rfl, ?_, ?_, hpair, ?_, ?_⟩
  · intro limits hl
    exact ⟨(hlen limits hl).1, (hlen limits hl).1, (hlen limits hl).2⟩
  · simp [ModelDSO2250.specification]
  · intro i j hi hj hij
    have h := List.pairwise_iff_getElem.mp hpair i j (by simpa using hi) (by simpa using hj) hij
    simpa using h
  · intro step hstep limits hl
    rw [(hlen limits hl).1]
    exact hstep

/-! ## Scope settings -/

/-- C13. A default-initialised `DsoSettingsScopeVoltage` has `gainStepIndex = 6`; for a
`DsoSettingsScope` with the default `gainSteps` list (9 entries) and a channel whose
`gainStepIndex` is 6, the index is within `gainSteps` and `gain(channel)` is exactly 1;
in general `gain(channel) = gainSteps[voltage[channel].gainStepIndex]` for every channel
below `voltage.size()` whose `gainStepIndex` is below `gainSteps.size()`.  A scope with
two default-initialised channels returns 1 for channel 1. -/
theorem dsoSettingsScope_gain_spec :
    ((({} : DsoSettingsScopeVoltage).gainStepIndex = 6)
      ∧ ({} : DsoSettingsScope).gainSteps.length = 9)
    ∧ (∀ (s : DsoSettingsScope) (channel : Nat) (hch : channel < s.voltage.length),
        s.gainSteps = ({} : DsoSettingsScope).gainSteps →
        (s.voltage.get ⟨channel, hch⟩).gainStepIndex = 6 →
        (s.voltage.get ⟨channel, hch⟩).gainStepIndex < s.gainSteps.length
          ∧ s.gain channel = some 1)
    ∧ (∀ (s : DsoSettingsScope) (channel : Nat) (hch : channel < s.voltage.length)
        (hidx : (s.voltage.get ⟨channel, hch⟩).gainStepIndex < s.gainSteps.length),
        s.gain channel
          = some (s.gainSteps.get ⟨(s.voltage.get ⟨channel, hch⟩).gainStepIndex, hidx⟩))
    ∧ ({ voltage := [{}, {}] } : DsoSettingsScope).gain 1 = some 1 := by
  refine ⟨⟨rfl, rfl⟩, ?_, ?_, ?_⟩
  · intro s channel hch hsteps hidx
    constructor
    · rw [hidx, hsteps]
      decide
    · simp only [DsoSettingsScope.gain, List.getElem?_eq_getElem hch, Option.bind_eq_bind,
        Option.some_bind]
      rw [List.get_eq_getElem] at hidx
      rw [hidx, hsteps]
      rfl
  · intro s channel hch hidx
    simp only [DsoSettingsScope.gain, List.getElem?_eq_getElem hch, Option.bind_eq_bind,
      Option.some_bind, List.get_eq_getElem]
    rw [List.get_eq_getElem] at hidx
    exact List.getElem?_eq_getElem hidx
  · rfl

/-! ## Samplerate limits in binary64 arithmetic -/

section Binary64Lemmas

open Dso.Binary64

theorem roundNearestEven_cases (y : ℚ) :
    roundNearestEven y = ⌊y⌋ ∧ y - ⌊y⌋ ≤ 1 / 2
      ∨ roundNearestEven y = ⌊y⌋ + 1 ∧ 1 / 2 ≤ y - ⌊y⌋ := by
  unfold roundNearestEven
  split_ifs with h1 h2 h3
  · exact Or.inl ⟨rfl, le_of_lt h1⟩
  · exact Or.inr ⟨rfl, le_of_lt h2⟩
  · exact Or.inl ⟨rfl, not_lt.mp h2⟩
  · exact Or.inr ⟨rfl, not_lt.mp h1⟩

theorem abs_roundNearestEven_sub_le (y : ℚ) : |(roundNearestEven y : ℚ) - y| ≤ 1 / 2 := by
  have h0 : (⌊y⌋ : ℚ) ≤ y := Int.floor_le y
  have h1 : y < ⌊y⌋ + 1 := Int.lt_floor_add_one y
  rcases roundNearestEven_cases y with ⟨h, hr⟩ | ⟨h, hr⟩
  · rw [h, abs_le]
    constructor <;> linarith
  · rw [h, abs_le]
    push_cast
    constructor <;> linarith

theorem roundNearestEven_intCast (n : ℤ) : roundNearestEven (n : ℚ) = n := by
  simp [roundNearestEven]

theorem roundNearestEven_eq_of_lt (y : ℚ) (n : ℤ) (h1 : (n : ℚ) - 1 / 2 < y)
    (h2 : y < (n : ℚ) + 1 / 2) : roundNearestEven y = n := by
  have hf0 : (⌊y⌋ : ℚ) ≤ y := Int.floor_le y
  have hf1 : y < ⌊y⌋ + 1 := Int.lt_floor_add_one y
  rcases roundNearestEven_cases y with ⟨h, hr⟩ | ⟨h, hr⟩
  · rw [h]
    have a : (⌊y⌋ : ℚ) < n + 1 := by linarith
    have b : (n : ℚ) < ⌊y⌋ + 1 := by linarith
    have a' : ⌊y⌋ < n + 1 := by exact_mod_cast a
    have b' : n < ⌊y⌋ + 1 := by exact_mod_cast b
    omega
  · rw [h]
    have a : (⌊y⌋ : ℚ) + 1 < n + 1 := by linarith
    have b : (n : ℚ) < ⌊y⌋ + 1 + 1 := by linarith
    have a' : ⌊y⌋ + 1 < n + 1 := by exact_mod_cast a
    have b' : n < ⌊y⌋ + 1 + 1 := by exact_mod_cast b
    omega

theorem roundNearestEven_mono {x y : ℚ} (h : x ≤ y) : roundNearestEven x ≤ roundNearestEven y := by
  have hfl : ⌊x⌋ ≤ ⌊y⌋ := Int.floor_mono h
  rcases lt_or_eq_of_le hfl with hlt | heq
  · have hx : roundNearestEven x ≤ ⌊x⌋ + 1 := by
      rcases roundNearestEven_cases x with ⟨h, _⟩ | ⟨h, _⟩ <;> omega
    have hy : ⌊y⌋ ≤ roundNearestEven y := by
      rcases roundNearestEven_cases y with ⟨h, _⟩ | ⟨h, _⟩ <;> omega
    omega
  · have hx' : x - (⌊y⌋ : ℚ) ≤ y - ⌊y⌋ := by linarith
    unfold roundNearestEven
    rw [heq]
    by_cases hy1 : y - ⌊y⌋ < 1 / 2
    · have hx1 : x - ⌊y⌋ < 1 / 2 := lt_of_le_of_lt hx' hy1
      rw [if_pos hx1, if_pos hy1]
    · by_cases hy2 : 1 / 2 < y - ⌊y⌋
      · rw [if_neg hy1, if_pos hy2]
        split_ifs <;> omega
      · have hx2 : ¬ (1 / 2 < x - ⌊y⌋) := fun hc => hy2 (lt_of_lt_of_le hc hx')
        rw [if_neg hy1, if_neg hy2, if_neg hx2]
        split_ifs <;> omega

theorem intLog_two_eq (q : ℚ) (L : ℤ) (h1 : (2 : ℚ) ^ L ≤ q) (h2 : q < (2 : ℚ) ^ (L + 1)) :
    Int.log 2 q = L := by
  have hq : 0 < q := lt_of_lt_of_le (zpow_pos (by norm_num) L) h1
  have a : L ≤ Int.log 2 q := by
    rw [← Int.zpow_le_iff_le_log (by norm_num) hq]
    simpa using h1
  have b : Int.log 2 q < L + 1 := by
    rw [← Int.lt_zpow_iff_log_lt (by norm_num) hq]
    simpa using h2
  omega

theorem two_zpow_intLog_le (q : ℚ) (hq : 0 < q) : (2 : ℚ) ^ Int.log 2 q ≤ q := by
  simpa using Int.zpow_log_le_self (b := 2) (by norm_num) hq

theorem lt_two_zpow_intLog_succ (q : ℚ) : q < (2 : ℚ) ^ (Int.log 2 q + 1) := by
  simpa using Int.lt_zpow_succ_log_self (b := 2) (by norm_num) q

theorem quantumExponent_of_normal (q : ℚ) (h : (2 : ℚ) ^ (-1022 : ℤ) ≤ q) :
    quantumExponent q = Int.log 2 q - 52 := by
  have hq : 0 < q := lt_of_lt_of_le (zpow_pos (by norm_num) _) h
  have a : (-1022 : ℤ) ≤ Int.log 2 q := by
    rw [← Int.zpow_le_iff_le_log (by norm_num) hq]
    simpa using h
  unfold quantumExponent
  exact max_eq_left (by omega)

theorem roundMagnitude_sub (q : ℚ) :
    roundMagnitude q - q
      = ((roundNearestEven (q / 2 ^ quantumExponent q) : ℚ) - q / 2 ^ quantumExponent q)
          * 2 ^ quantumExponent q := by
  have hp : (2 : ℚ) ^ quantumExponent q ≠ 0 := zpow_ne_zero _ (by norm_num)
  unfold roundMagnitude
  field_simp

/-- Relative error of rounding in the normal range: at most `2^-53`. -/
theorem abs_roundMagnitude_sub_le (q : ℚ) (h : (2 : ℚ) ^ (-1022 : ℤ) ≤ q) :
    |roundMagnitude q - q| ≤ q * (2 : ℚ) ^ (-53 : ℤ) := by
  have hq : 0 < q := lt_of_lt_of_le (zpow_pos (by norm_num) _) h
  have he := quantumExponent_of_normal q h
  have hp : (0 : ℚ) < 2 ^ quantumExponent q := zpow_pos (by norm_num) _
  rw [roundMagnitude_sub, abs_mul, abs_of_pos hp]
  have h1 := abs_roundNearestEven_sub_le (q / 2 ^ quantumExponent q)
  have h2 : (2 : ℚ) ^ quantumExponent q = 2 ^ Int.log 2 q * 2 ^ (-52 : ℤ) := by
    rw [he, sub_eq_add_neg, zpow_add₀ (by norm_num)]
  have h3 := two_zpow_intLog_le q hq
  calc |(roundNearestEven (q / 2 ^ quantumExponent q) : ℚ) - q / 2 ^ quantumExponent q|
        * 2 ^ quantumExponent q
      ≤ 1 / 2 * 2 ^ quantumExponent q := mul_le_mul_of_nonneg_right h1 (le_of_lt hp)
    _ = 2 ^ Int.log 2 q * (2 : ℚ) ^ (-53 : ℤ) := by
        rw [h2]
        have : (2 : ℚ) ^ (-53 : ℤ) = 1 / 2 * 2 ^ (-52 : ℤ) := by norm_num
        rw [this]
        ring
    _ ≤ q * (2 : ℚ) ^ (-53 : ℤ) :=
        mul_le_mul_of_nonneg_right h3 (le_of_lt (zpow_pos (by norm_num) _))

theorem roundMagnitude_eq (q : ℚ) (L n : ℤ) (hL : -1022 ≤ L) (h1 : (2 : ℚ) ^ L ≤ q)
    (h2 : q < (2 : ℚ) ^ (L + 1)) (hn1 : (n : ℚ) - 1 / 2 < q / 2 ^ (L - 52))
    (hn2 : q / 2 ^ (L - 52) < (n : ℚ) + 1 / 2) :
    roundMagnitude q = (n : ℚ) * 2 ^ (L - 52) := by
  have hlog := intLog_two_eq q L h1 h2
  have he : quantumExponent q = L - 52 := by
    unfold quantumExponent
    rw [hlog]
    exact max_eq_left (by omega)
  unfold roundMagnitude
  rw [he, roundNearestEven_eq_of_lt _ n hn1 hn2]

theorem roundMagnitude_zero : roundMagnitude 0 = 0 := by
  simp [roundMagnitude, roundNearestEven]

theorem roundMagnitude_nonneg (q : ℚ) (hq : 0 ≤ q) : 0 ≤ roundMagnitude q := by
  unfold roundMagnitude
  have hp : (0 : ℚ) < 2 ^ quantumExponent q := zpow_pos (by norm_num) _
  have h0 : (0 : ℚ) ≤ q / 2 ^ quantumExponent q := div_nonneg hq (le_of_lt hp)
  have h1 : roundNearestEven ((0 : ℤ) : ℚ) ≤ roundNearestEven (q / 2 ^ quantumExponent q) :=
    roundNearestEven_mono (by simpa using h0)
  rw [roundNearestEven_intCast] at h1
  have h2 : (0 : ℚ) ≤ (roundNearestEven (q / 2 ^ quantumExponent q) : ℚ) := by exact_mod_cast h1
  exact mul_nonneg h2 (le_of_lt hp)

theorem roundMagnitude_le_of_le_mul (q : ℚ) (n : ℤ)
    (h : q ≤ (n : ℚ) * 2 ^ quantumExponent q) :
    roundMagnitude q ≤ (n : ℚ) * 2 ^ quantumExponent q := by
  have hp : (0 : ℚ) < 2 ^ quantumExponent q := zpow_pos (by norm_num) _
  have h1 : q / 2 ^ quantumExponent q ≤ (n : ℚ) := by
    rw [div_le_iff₀ hp]
    exact h
  have h2 := roundNearestEven_mono h1
  rw [roundNearestEven_intCast] at h2
  have h3 : (roundNearestEven (q / 2 ^ quantumExponent q) : ℚ) ≤ (n : ℚ) := by exact_mod_cast h2
  exact mul_le_mul_of_nonneg_right h3 (le_of_lt hp)

theorem mul_le_roundMagnitude_of_le (q : ℚ) (n : ℤ)
    (h : (n : ℚ) * 2 ^ quantumExponent q ≤ q) :
    (n : ℚ) * 2 ^ quantumExponent q ≤ roundMagnitude q := by
  have hp : (0 : ℚ) < 2 ^ quantumExponent q := zpow_pos (by norm_num) _
  have h1 : (n : ℚ) ≤ q / 2 ^ quantumExponent q := by
    rw [le_div_iff₀ hp]
    exact h
  have h2 := roundNearestEven_mono h1
  rw [roundNearestEven_intCast] at h2
  have h3 : (n : ℚ) ≤ (roundNearestEven (q / 2 ^ quantumExponent q) : ℚ) := by exact_mod_cast h2
  exact mul_le_mul_of_nonneg_right h3 (le_of_lt hp)

theorem two_zpow_eq_intCast_mul (a b : ℤ) (h : b ≤ a) :
    (2 : ℚ) ^ a = (((2 : ℤ) ^ (a - b).toNat : ℤ) : ℚ) * 2 ^ b := by
  have hk : ((a - b).toNat : ℤ) = a - b := Int.toNat_of_nonneg (by omega)
  have : (((2 : ℤ) ^ (a - b).toNat : ℤ) : ℚ) = (2 : ℚ) ^ (((a - b).toNat : ℕ) : ℤ) := by
    push_cast
    rw [zpow_natCast]
  rw [this, hk, ← zpow_add₀ (by norm_num : (2 : ℚ) ≠ 0)]
  congr 1
  omega

/-- Rounding is monotone on non-negative magnitudes. -/
theorem roundMagnitude_mono {x y : ℚ} (hx : 0 ≤ x) (h : x ≤ y) :
    roundMagnitude x ≤ roundMagnitude y := by
  rcases eq_or_lt_of_le hx with h0 | hpos
  · rw [← h0, roundMagnitude_zero]
    exact roundMagnitude_nonneg y (le_trans hx h)
  · have hy : 0 < y := lt_of_lt_of_le hpos h
    have hlog : Int.log 2 x ≤ Int.log 2 y := Int.log_mono_right hpos h
    have hexy : quantumExponent x ≤ quantumExponent y := by
      unfold quantumExponent
      exact max_le_max (by omega) le_rfl
    rcases eq_or_lt_of_le hexy with heq | hlt
    · have hp : (0 : ℚ) < 2 ^ quantumExponent y := zpow_pos (by norm_num) _
      unfold roundMagnitude
      rw [heq]
      have h1 : x / 2 ^ quantumExponent y ≤ y / 2 ^ quantumExponent y :=
        div_le_div_of_nonneg_right h (le_of_lt hp)
      have h2 := roundNearestEven_mono h1
      have h3 : (roundNearestEven (x / 2 ^ quantumExponent y) : ℚ)
          ≤ (roundNearestEven (y / 2 ^ quantumExponent y) : ℚ) := by exact_mod_cast h2
      exact mul_le_mul_of_nonneg_right h3 (le_of_lt hp)
    · have hex : Int.log 2 x - 52 ≤ quantumExponent x := le_max_left _ _
      have hex2 : (-1074 : ℤ) ≤ quantumExponent x := le_max_right _ _
      have hey : quantumExponent y = Int.log 2 y - 52 := by
        unfold quantumExponent at hlt hex2 ⊢
        rcases le_total (Int.log 2 y - 52) (-1074) with hc | hc
        · rw [max_eq_right hc] at hlt
          omega
        · exact max_eq_left hc
      have hstep : Int.log 2 x + 1 ≤ Int.log 2 y := by omega
      have hxP : x ≤ (2 : ℚ) ^ Int.log 2 y :=
        le_trans (le_of_lt (lt_two_zpow_intLog_succ x))
          (zpow_le_zpow_right₀ (by norm_num) hstep)
      have hPy : (2 : ℚ) ^ Int.log 2 y ≤ y := two_zpow_intLog_le y hy
      have e1 := two_zpow_eq_intCast_mul (Int.log 2 y) (quantumExponent x) (by omega)
      have e2 := two_zpow_eq_intCast_mul (Int.log 2 y) (quantumExponent y) (by omega)
      have a1 := roundMagnitude_le_of_le_mul x _ (by rw [← e1]; exact hxP)
      have a2 := mul_le_roundMagnitude_of_le y _ (by rw [← e2]; exact hPy)
      rw [← e1] at a1
      rw [← e2] at a2
      exact le_trans a1 a2


theorem div_fin_fin_of_ne_zero (a b : ℚ) (hb : b ≠ 0) :
    div (Value.fin false a) (Value.fin false b) = ofMagnitude false (a / b) := by
  simp [div, hb]

theorem ofRat_of_nonneg (q : ℚ) (hq : 0 ≤ q) : ofRat q = Value.fin false q := by
  simp [ofRat, abs_of_nonneg hq, not_lt.mpr hq]

/-- A division of positive finite values whose exact quotient lies in the normal range:
the result is finite and within relative error `2^-53` of the quotient. -/
theorem div_fin_pos (a b : ℚ) (hb : 0 < b) (hlo : (2 : ℚ) ^ (-1022 : ℤ) ≤ a / b)
    (hhi : a / b ≤ 2 ^ 1023) :
    ∃ c : ℚ, div (Value.fin false a) (Value.fin false b) = Value.fin false c
      ∧ a / b * (1 - 2 ^ (-53 : ℤ)) ≤ c ∧ c ≤ a / b * (1 + 2 ^ (-53 : ℤ)) := by
  have herr := abs_roundMagnitude_sub_le (a / b) hlo
  rw [abs_le] at herr
  have hq : 0 < a / b := lt_of_lt_of_le (zpow_pos (by norm_num) _) hlo
  have hup : roundMagnitude (a / b) ≤ a / b * (1 + 2 ^ (-53 : ℤ)) := by linarith [herr.2]
  have hdn : a / b * (1 - 2 ^ (-53 : ℤ)) ≤ roundMagnitude (a / b) := by linarith [herr.1]
  have hlt : roundMagnitude (a / b) < 2 ^ 1024 := by
    have h1 : a / b * (1 + 2 ^ (-53 : ℤ)) ≤ 2 ^ 1023 * (1 + 2 ^ (-53 : ℤ)) :=
      mul_le_mul_of_nonneg_right hhi (by norm_num)
    have h2 : (2 : ℚ) ^ 1023 * (1 + 2 ^ (-53 : ℤ)) < 2 ^ 1024 := by norm_num
    linarith
  refine ⟨roundMagnitude (a / b), ?_, hdn, hup⟩
  rw [div_fin_fin_of_ne_zero a b (ne_of_gt hb), ofMagnitude, if_pos hlt]

/-- A division of non-negative finite values whose exact quotient is at most a
representable finite `M`: the result is finite, the rounded quotient, and at most `M`. -/
theorem div_fin_le (a b M : ℚ) (ha : 0 ≤ a) (hb : 0 < b) (hM : roundMagnitude M = M)
    (hM2 : M < 2 ^ 1024) (h : a / b ≤ M) :
    div (Value.fin false a) (Value.fin false b) = Value.fin false (roundMagnitude (a / b))
      ∧ roundMagnitude (a / b) ≤ M := by
  have hq : 0 ≤ a / b := div_nonneg ha (le_of_lt hb)
  have hle : roundMagnitude (a / b) ≤ M := by
    have := roundMagnitude_mono hq h
    rwa [hM] at this
  refine ⟨?_, hle⟩
  rw [div_fin_fin_of_ne_zero a b (ne_of_gt hb), ofMagnitude, if_pos (lt_of_le_of_lt hle hM2)]

theorem natCast_bounds {n : Nat} (h1 : 1 ≤ n) (h2 : n ≤ UINT_MAX) :
    (1 : ℚ) ≤ n ∧ (n : ℚ) ≤ 4294967295 := by
  refine ⟨by exact_mod_cast h1, ?_⟩
  have : n ≤ 4294967295 := h2
  exact_mod_cast this

/-- One binary64 division of a positive finite value by an unsigned. -/
theorem div_ofNat_bounds (a : ℚ) (n : Nat) (ha1 : (2 : ℚ) ^ (-989 : ℤ) ≤ a)
    (ha2 : a ≤ 2 ^ 1023) (hn1 : 1 ≤ n) (hn2 : n ≤ UINT_MAX) :
    ∃ c : ℚ, div (Value.fin false a) (ofNat n) = Value.fin false c
      ∧ a / n * (1 - 2 ^ (-53 : ℤ)) ≤ c ∧ c ≤ a / n * (1 + 2 ^ (-53 : ℤ)) := by
  obtain ⟨hn, hn'⟩ := natCast_bounds hn1 hn2
  have hn0 : (0 : ℚ) < n := lt_of_lt_of_le one_pos hn
  have ha0 : 0 < a := lt_of_lt_of_le (zpow_pos (by norm_num) _) ha1
  apply div_fin_pos a n hn0
  · rw [le_div_iff₀ hn0]
    calc (2 : ℚ) ^ (-1022 : ℤ) * n ≤ 2 ^ (-1022 : ℤ) * 4294967295 :=
          mul_le_mul_of_nonneg_left hn' (by norm_num)
      _ ≤ 2 ^ (-989 : ℤ) := by norm_num
      _ ≤ a := ha1
  · exact le_trans (div_le_self (le_of_lt ha0) hn) ha2

/-- Two successive binary64 divisions of a positive finite value by unsigneds. -/
theorem div_div_ofNat_bounds (a : ℚ) (n1 n2 : Nat) (ha1 : (2 : ℚ) ^ (-950 : ℤ) ≤ a)
    (ha2 : a ≤ 2 ^ 1000) (hn1 : 1 ≤ n1) (hn1' : n1 ≤ UINT_MAX) (hn2 : 1 ≤ n2)
    (hn2' : n2 ≤ UINT_MAX) :
    ∃ c : ℚ, div (div (Value.fin false a) (ofNat n1)) (ofNat n2) = Value.fin false c
      ∧ a / n1 / n2 * (1 - 2 ^ (-53 : ℤ)) ^ 2 ≤ c
      ∧ c ≤ a / n1 / n2 * (1 + 2 ^ (-53 : ℤ)) ^ 2 := by
  obtain ⟨hm, hm'⟩ := natCast_bounds hn1 hn1'
  obtain ⟨hk, hk'⟩ := natCast_bounds hn2 hn2'
  have hm0 : (0 : ℚ) < n1 := lt_of_lt_of_le one_pos hm
  have hk0 : (0 : ℚ) < n2 := lt_of_lt_of_le one_pos hk
  have ha0 : 0 < a := lt_of_lt_of_le (zpow_pos (by norm_num) _) ha1
  obtain ⟨c1, e1, l1, u1⟩ := div_ofNat_bounds a n1
    (le_trans (by norm_num) ha1) (le_trans ha2 (by norm_num)) hn1 hn1'
  have hq0 : 0 < a / n1 := div_pos ha0 hm0
  have hc1lo : (2 : ℚ) ^ (-989 : ℤ) ≤ c1 := by
    have h1 : (2 : ℚ) ^ (-950 : ℤ) / 4294967295 ≤ a / n1 :=
      div_le_div₀ (le_of_lt ha0) ha1 hm0 hm'
    have h2 : (2 : ℚ) ^ (-950 : ℤ) / 4294967295 * (1 - 2 ^ (-53 : ℤ))
        ≤ a / n1 * (1 - 2 ^ (-53 : ℤ)) := mul_le_mul_of_nonneg_right h1 (by norm_num)
    have h3 : (2 : ℚ) ^ (-989 : ℤ) ≤ 2 ^ (-950 : ℤ) / 4294967295 * (1 - 2 ^ (-53 : ℤ)) := by
      norm_num
    exact le_trans h3 (le_trans h2 l1)
  have hc1hi : c1 ≤ 2 ^ 1023 := by
    have h1 : a / n1 ≤ 2 ^ 1000 := le_trans (div_le_self (le_of_lt ha0) hm) ha2
    have h2 : a / n1 * (1 + 2 ^ (-53 : ℤ)) ≤ 2 ^ 1000 * (1 + 2 ^ (-53 : ℤ)) :=
      mul_le_mul_of_nonneg_right h1 (by norm_num)
    have h3 : (2 : ℚ) ^ 1000 * (1 + 2 ^ (-53 : ℤ)) ≤ 2 ^ 1023 := by norm_num
    exact le_trans u1 (le_trans h2 h3)
  obtain ⟨c2, e2, l2, u2⟩ := div_ofNat_bounds c1 n2 hc1lo hc1hi hn2 hn2'
  refine ⟨c2, by rw [e1, e2], ?_, ?_⟩
  · have h1 : a / n1 * (1 - 2 ^ (-53 : ℤ)) / n2 ≤ c1 / n2 :=
      div_le_div_of_nonneg_right l1 (le_of_lt hk0)
    have h2 : a / n1 * (1 - 2 ^ (-53 : ℤ)) / n2 * (1 - 2 ^ (-53 : ℤ))
        ≤ c1 / n2 * (1 - 2 ^ (-53 : ℤ)) := mul_le_mul_of_nonneg_right h1 (by norm_num)
    have h3 : a / n1 / n2 * (1 - 2 ^ (-53 : ℤ)) ^ 2
        = a / n1 * (1 - 2 ^ (-53 : ℤ)) / n2 * (1 - 2 ^ (-53 : ℤ)) := by ring
    rw [h3]
    exact le_trans h2 l2
  · have h1 : c1 / n2 ≤ a / n1 * (1 + 2 ^ (-53 : ℤ)) / n2 :=
      div_le_div_of_nonneg_right u1 (le_of_lt hk0)
    have h2 : c1 / n2 * (1 + 2 ^ (-53 : ℤ))
        ≤ a / n1 * (1 + 2 ^ (-53 : ℤ)) / n2 * (1 + 2 ^ (-53 : ℤ)) :=
      mul_le_mul_of_nonneg_right h1 (by norm_num)
    have h3 : a / n1 / n2 * (1 + 2 ^ (-53 : ℤ)) ^ 2
        = a / n1 * (1 + 2 ^ (-53 : ℤ)) / n2 * (1 + 2 ^ (-53 : ℤ)) := by ring
    rw [h3]
    exact le_trans u2 h2

/-- A binary64 division whose exact quotient lies between `lo` and `hi` up to the
rounding factors of its operands: the result is finite and lies between `lo` and `hi` up
to relative error `2^-50`. -/
theorem div_between (x y lo hi : ℚ) (hy : 0 < y) (hlo : (2 : ℚ) ^ (-1000 : ℤ) ≤ lo)
    (hhi : hi ≤ 2 ^ 1000)
    (h1 : lo * ((1 - 2 ^ (-53 : ℤ)) / (1 + 2 ^ (-53 : ℤ)) ^ 2) ≤ x / y)
    (h2 : x / y ≤ hi * ((1 + 2 ^ (-53 : ℤ)) / (1 - 2 ^ (-53 : ℤ)) ^ 2)) :
    ∃ c : ℚ, div (Value.fin false x) (Value.fin false y) = Value.fin false c
      ∧ lo * (1 - 2 ^ (-50 : ℤ)) ≤ c ∧ c ≤ hi * (1 + 2 ^ (-50 : ℤ)) := by
  have hlo0 : 0 < lo := lt_of_lt_of_le (zpow_pos (by norm_num) _) hlo
  have k1 : (1 / 2 : ℚ) ≤ (1 - 2 ^ (-53 : ℤ)) / (1 + 2 ^ (-53 : ℤ)) ^ 2 := by norm_num
  have k2 : (1 + 2 ^ (-53 : ℤ)) / (1 - 2 ^ (-53 : ℤ)) ^ 2 ≤ (2 : ℚ) := by norm_num
  have k3 : (1 - 2 ^ (-50 : ℤ) : ℚ)
      ≤ (1 - 2 ^ (-53 : ℤ)) / (1 + 2 ^ (-53 : ℤ)) ^ 2 * (1 - 2 ^ (-53 : ℤ)) := by norm_num
  have k4 : (1 + 2 ^ (-53 : ℤ)) / (1 - 2 ^ (-53 : ℤ)) ^ 2 * (1 + 2 ^ (-53 : ℤ))
      ≤ (1 + 2 ^ (-50 : ℤ) : ℚ) := by norm_num
  have hxy0 : 0 < x / y := by
    have : 0 < lo * ((1 - 2 ^ (-53 : ℤ)) / (1 + 2 ^ (-53 : ℤ)) ^ 2) :=
      mul_pos hlo0 (by norm_num)
    exact lt_of_lt_of_le this h1
  have hhi0 : 0 < hi := by
    by_contra hc
    have hc' : hi ≤ 0 := not_lt.mp hc
    have : hi * ((1 + 2 ^ (-53 : ℤ)) / (1 - 2 ^ (-53 : ℤ)) ^ 2) ≤ 0 :=
      mul_nonpos_of_nonpos_of_nonneg hc' (by norm_num)
    exact absurd (lt_of_lt_of_le hxy0 (le_trans h2 this)) (lt_irrefl 0)
  have r1 : (2 : ℚ) ^ (-1022 : ℤ) ≤ x / y := by
    have a1 : lo * (1 / 2) ≤ lo * ((1 - 2 ^ (-53 : ℤ)) / (1 + 2 ^ (-53 : ℤ)) ^ 2) :=
      mul_le_mul_of_nonneg_left k1 (le_of_lt hlo0)
    have a2 : (2 : ℚ) ^ (-1000 : ℤ) * (1 / 2) ≤ lo * (1 / 2) :=
      mul_le_mul_of_nonneg_right hlo (by norm_num)
    have a3 : (2 : ℚ) ^ (-1022 : ℤ) ≤ 2 ^ (-1000 : ℤ) * (1 / 2) := by norm_num
    exact le_trans a3 (le_trans a2 (le_trans a1 h1))
  have r2 : x / y ≤ 2 ^ 1023 := by
    have a1 : hi * ((1 + 2 ^ (-53 : ℤ)) / (1 - 2 ^ (-53 : ℤ)) ^ 2) ≤ hi * 2 :=
      mul_le_mul_of_nonneg_left k2 (le_of_lt hhi0)
    have a2 : hi * 2 ≤ 2 ^ 1000 * 2 := mul_le_mul_of_nonneg_right hhi (by norm_num)
    have a3 : (2 : ℚ) ^ 1000 * 2 ≤ 2 ^ 1023 := by norm_num
    exact le_trans h2 (le_trans a1 (le_trans a2 a3))
  obtain ⟨c, e, l, u⟩ := div_fin_pos x y hy r1 r2
  refine ⟨c, e, ?_, ?_⟩
  · have a1 : lo * ((1 - 2 ^ (-53 : ℤ)) / (1 + 2 ^ (-53 : ℤ)) ^ 2) * (1 - 2 ^ (-53 : ℤ))
        ≤ x / y * (1 - 2 ^ (-53 : ℤ)) := mul_le_mul_of_nonneg_right h1 (by norm_num)
    have a2 : lo * (1 - 2 ^ (-50 : ℤ))
        ≤ lo * ((1 - 2 ^ (-53 : ℤ)) / (1 + 2 ^ (-53 : ℤ)) ^ 2 * (1 - 2 ^ (-53 : ℤ))) :=
      mul_le_mul_of_nonneg_left k3 (le_of_lt hlo0)
    rw [mul_assoc] at a1
    exact le_trans a2 (le_trans a1 l)
  · have a1 : x / y * (1 + 2 ^ (-53 : ℤ))
        ≤ hi * ((1 + 2 ^ (-53 : ℤ)) / (1 - 2 ^ (-53 : ℤ)) ^ 2) * (1 + 2 ^ (-53 : ℤ)) :=
      mul_le_mul_of_nonneg_right h2 (by norm_num)
    have a2 : hi * ((1 + 2 ^ (-53 : ℤ)) / (1 - 2 ^ (-53 : ℤ)) ^ 2 * (1 + 2 ^ (-53 : ℤ)))
        ≤ hi * (1 + 2 ^ (-50 : ℤ)) := mul_le_mul_of_nonneg_left k4 (le_of_lt hhi0)
    rw [mul_assoc] at a1
    exact le_trans u (le_trans a1 a2)

theorem div_le_ratio (x y X Y a b : ℚ) (hX : 0 ≤ X) (hY : 0 < Y) (ha : 0 ≤ a) (hb : 0 < b)
    (hx : x ≤ X * a) (hy : Y * b ≤ y) : x / y ≤ X / Y * (a / b) := by
  rw [← mul_div_mul_comm]
  exact div_le_div₀ (mul_nonneg hX ha) hx (mul_pos hY hb) hy

theorem ratio_le_div (x y X Y a b : ℚ) (hX : 0 ≤ X) (ha : 0 ≤ a) (hy0 : 0 < y)
    (hx : X * a ≤ x) (hy : y ≤ Y * b) : X / Y * (a / b) ≤ x / y := by
  rw [← mul_div_mul_comm]
  exact div_le_div₀ (le_trans (mul_nonneg hX ha) hx) hx hy0 hy

/-- Evaluation of a binary64 division of positive finite values: with `2^L` the power of
two at or below the exact quotient and `n` the integer nearest to the quotient in units
of `2^(L-52)`, the result is `n * 2^(L-52)`. -/
theorem div_fin_eval (a b : ℚ) (L n : ℤ) (hb : b ≠ 0) (hL : -1022 ≤ L)
    (h1 : (2 : ℚ) ^ L ≤ a / b) (h2 : a / b < (2 : ℚ) ^ (L + 1))
    (hn1 : (n : ℚ) - 1 / 2 < a / b / 2 ^ (L - 52))
    (hn2 : a / b / 2 ^ (L - 52) < (n : ℚ) + 1 / 2)
    (hfin : (n : ℚ) * 2 ^ (L - 52) < 2 ^ 1024) :
    div (Value.fin false a) (Value.fin false b) = Value.fin false ((n : ℚ) * 2 ^ (L - 52)) := by
  rw [div_fin_fin_of_ne_zero a b hb, ofMagnitude, roundMagnitude_eq (a / b) L n hL h1 h2 hn1 hn2,
    if_pos hfin]

theorem binary64_samplerate_eq (l : ControlSamplerateLimits) (id : RecordLengthID) (d : Nat)
    (hid : id < l.recordLengths.length) :
    Binary64.samplerate l id d
      = some (div (div (ofRat l.base) (ofNat d)) (ofNat l.recordLengths[id].bufferDivider)) := by
  simp [Binary64.samplerate, List.getElem?_eq_getElem hid]

theorem binary64_minSamplerate_eq (l : ControlSamplerateLimits) (id : RecordLengthID)
    (hid : id < l.recordLengths.length) :
    Binary64.minSamplerate l id
      = some (div (div (ofRat l.base) (ofNat l.maxDownsampler))
          (ofNat l.recordLengths[id].bufferDivider)) := by
  simp [Binary64.minSamplerate, List.getElem?_eq_getElem hid]

theorem binary64_maxSamplerate_eq (l : ControlSamplerateLimits) (id : RecordLengthID)
    (hid : id < l.recordLengths.length) :
    Binary64.maxSamplerate l id
      = some (div (ofRat l.max) (ofNat l.recordLengths[id].bufferDivider)) := by
  simp [Binary64.maxSamplerate, List.getElem?_eq_getElem hid]

theorem binary64_computeDownsampler_eq (l : ControlSamplerateLimits) (id : RecordLengthID)
    (r : Value) (hid : id < l.recordLengths.length) :
    Binary64.computeDownsampler l id r
      = some (div (div (ofRat l.base) (ofNat l.recordLengths[id].bufferDivider)) r) := by
  simp [Binary64.computeDownsampler, List.getElem?_eq_getElem hid]

theorem abs_sub_le_of_rel (c D T : ℚ) (h1 : D * (1 - T) ≤ c) (h2 : c ≤ D * (1 + T)) :
    |c - D| ≤ D * T := by
  rw [abs_le]
  constructor <;> linarith

theorem round_eq_of_abs_sub_lt (c : ℚ) (n : ℤ) (h : |c - n| < 1 / 2) : round c = n := by
  rw [abs_lt] at h
  rw [round_eq, Int.floor_eq_iff]
  constructor <;> linarith [h.1, h.2]

theorem natCast_mul_tolerance_lt {n : Nat} (h : n ≤ UINT_MAX) :
    (n : ℚ) * 2 ^ (-50 : ℤ) < 1 / 2 := by
  have h1 : (n : ℚ) ≤ 4294967295 := by
    have : n ≤ 4294967295 := h
    exact_mod_cast this
  have h2 : (n : ℚ) * 2 ^ (-50 : ℤ) ≤ 4294967295 * 2 ^ (-50 : ℤ) :=
    mul_le_mul_of_nonneg_right h1 (by norm_num)
  have h3 : (4294967295 : ℚ) * 2 ^ (-50 : ℤ) < 1 / 2 := by norm_num
  exact lt_of_le_of_lt h2 h3

/-- C1, amended. Round trip in binary64 arithmetic: for a finite `base` with
`2^-950 ≤ base ≤ 2^1000`, an id in range whose `bufferDivider` is a positive unsigned and an
unsigned downsampler `d ≥ 1`, `samplerate(id, d)` is a finite positive double `s`,
`computeDownsampler(id, s)` is a finite double `c` with `|c - d| ≤ d * 2^-50`, and `d` is
the integer nearest to `c`. -/
theorem binary64_computeDownsampler_samplerate_roundtrip (l : ControlSamplerateLimits)
    (id : RecordLengthID) (d : Nat) (hb1 : (2 : ℚ) ^ (-950 : ℤ) ≤ l.base)
    (hb2 : l.base ≤ 2 ^ 1000) (hid : id < l.recordLengths.length)
    (hdiv : 0 < l.recordLengths[id].bufferDivider)
    (hdiv2 : l.recordLengths[id].bufferDivider ≤ UINT_MAX) (hd : 1 ≤ d)
    (hd2 : d ≤ UINT_MAX) :
    ∃ s c : ℚ, Binary64.samplerate l id d = some (Value.fin false s)
      ∧ Binary64.computeDownsampler l id (Value.fin false s) = some (Value.fin false c)
      ∧ |c - d| ≤ d * 2 ^ (-50 : ℤ) ∧ round c = (d : ℤ) := by
  have hbase0 : 0 < l.base := lt_of_lt_of_le (zpow_pos (by norm_num) _) hb1
  obtain ⟨hdq, hdq'⟩ := natCast_bounds hd hd2
  obtain ⟨hbq, hbq'⟩ := natCast_bounds hdiv hdiv2
  have hd0 : (0 : ℚ) < d := lt_of_lt_of_le one_pos hdq
  have hbd0 : (0 : ℚ) < l.recordLengths[id].bufferDivider := lt_of_lt_of_le one_pos hbq
  obtain ⟨s, es, ls, us⟩ := div_div_ofNat_bounds l.base d l.recordLengths[id].bufferDivider
    hb1 hb2 hd hd2 hdiv hdiv2
  obtain ⟨q, eq, lq, uq⟩ := div_ofNat_bounds l.base l.recordLengths[id].bufferDivider
    (le_trans (by norm_num) hb1) (le_trans hb2 (by norm_num)) hdiv hdiv2
  have hY : 0 < l.base / d / l.recordLengths[id].bufferDivider :=
    div_pos (div_pos hbase0 hd0) hbd0
  have hX : 0 < l.base / l.recordLengths[id].bufferDivider := div_pos hbase0 hbd0
  have hs0 : 0 < s :=
    lt_of_lt_of_le (mul_pos hY (by norm_num)) ls
  have hratio : l.base / l.recordLengths[id].bufferDivider
      / (l.base / d / l.recordLengths[id].bufferDivider) = (d : ℚ) := by
    have := ne_of_gt hbase0
    field_simp
    ring
  have h1 := ratio_le_div q s _ _ (1 - 2 ^ (-53 : ℤ)) ((1 + 2 ^ (-53 : ℤ)) ^ 2)
    (le_of_lt hX) (by norm_num) hs0 lq us
  have h2 := div_le_ratio q s _ _ (1 + 2 ^ (-53 : ℤ)) ((1 - 2 ^ (-53 : ℤ)) ^ 2)
    (le_of_lt hX) hY (by norm_num) (by norm_num) uq ls
  rw [hratio] at h1 h2
  obtain ⟨c, ec, lc, uc⟩ := div_between q s d d hs0
    (le_trans (by norm_num) hdq) (le_trans hdq' (by norm_num)) h1 h2
  have habs := abs_sub_le_of_rel c d _ lc uc
  have htol := natCast_mul_tolerance_lt hd2
  refine ⟨s, c, ?_, ?_, habs, ?_⟩
  · rw [binary64_samplerate_eq l id d hid, ofRat_of_nonneg _ (le_of_lt hbase0), es]
  · rw [binary64_computeDownsampler_eq l id _ hid, ofRat_of_nonneg _ (le_of_lt hbase0), eq, ec]
  · apply round_eq_of_abs_sub_lt
    rw [Int.cast_natCast]
    exact lt_of_le_of_lt habs htol

/-- C4, amended. Upper bound in binary64 arithmetic: for finite limits with
`0 ≤ base ≤ max`, an id in range whose `bufferDivider` is positive and
`1 ≤ d ≤ maxDownsampler`, `samplerate(id, d)` and `maxSamplerate(id) = max / bufferDivider`
are finite non-negative doubles and `samplerate(id, d) ≤ maxSamplerate(id)`. -/
theorem binary64_samplerate_le_maxSamplerate (l : ControlSamplerateLimits)
    (id : RecordLengthID) (d : Nat) (h0 : 0 ≤ l.base) (hle : l.base ≤ l.max)
    (hfin : IsFinite l.max) (hid : id < l.recordLengths.length)
    (hdiv : 0 < l.recordLengths[id].bufferDivider) (hd1 : 1 ≤ d)
    (_hd2 : d ≤ l.maxDownsampler) :
    ∃ s m : ℚ, Binary64.samplerate l id d = some (Value.fin false s)
      ∧ Binary64.maxSamplerate l id = some (Value.fin false m)
      ∧ Binary64.maxSamplerate l id
          = some (div (ofRat l.max) (ofNat l.recordLengths[id].bufferDivider))
      ∧ s ≤ m := by
  have hmax0 : 0 ≤ l.max := le_trans h0 hle
  obtain ⟨hM, hM2⟩ := hfin
  rw [abs_of_nonneg hmax0] at hM hM2
  have hdq : (1 : ℚ) ≤ d := by exact_mod_cast hd1
  have hbq : (1 : ℚ) ≤ l.recordLengths[id].bufferDivider := by exact_mod_cast hdiv
  have hd0 : (0 : ℚ) < d := lt_of_lt_of_le one_pos hdq
  have hbd0 : (0 : ℚ) < l.recordLengths[id].bufferDivider := lt_of_lt_of_le one_pos hbq
  obtain ⟨e1, b1⟩ := div_fin_le l.base d l.max h0 hd0 hM hM2
    (le_trans (div_le_self h0 hdq) hle)
  have hq1 : 0 ≤ roundMagnitude (l.base / d) :=
    roundMagnitude_nonneg _ (div_nonneg h0 (le_of_lt hd0))
  obtain ⟨e2, _⟩ := div_fin_le (roundMagnitude (l.base / d)) l.recordLengths[id].bufferDivider
    l.max hq1 hbd0 hM hM2 (le_trans (div_le_self hq1 hbq) b1)
  obtain ⟨e3, _⟩ := div_fin_le l.max l.recordLengths[id].bufferDivider l.max hmax0 hbd0 hM hM2
    (div_le_self hmax0 hbq)
  refine ⟨roundMagnitude (roundMagnitude (l.base / d) / l.recordLengths[id].bufferDivider),
    roundMagnitude (l.max / l.recordLengths[id].bufferDivider), ?_, ?_,
    binary64_maxSamplerate_eq l id hid, ?_⟩
  · rw [binary64_samplerate_eq l id d hid, ofRat_of_nonneg _ h0]
    show some (div (div (Value.fin false l.base) (Value.fin false (d : ℚ)))
      (Value.fin false (l.recordLengths[id].bufferDivider : ℚ))) = _
    rw [e1, e2]
  · rw [binary64_maxSamplerate_eq l id hid, ofRat_of_nonneg _ hmax0]
    show some (div (Value.fin false l.max)
      (Value.fin false (l.recordLengths[id].bufferDivider : ℚ))) = _
    rw [e3]
  · apply roundMagnitude_mono
      (div_nonneg hq1 (le_of_lt hbd0))
    exact div_le_div_of_nonneg_right b1 (le_of_lt hbd0)

/-- C5, amended. Downsampler bound in binary64 arithmetic: for finite `base` and `max`
between `2^-500` and `2^500`, an unsigned `maxDownsampler ≥ 1` and an id in range whose
`bufferDivider` is a positive unsigned, `minSamplerate(id)` and `maxSamplerate(id)` are
finite positive doubles; `computeDownsampler(id, minSamplerate(id))` is within relative
error `2^-50` of `maxDownsampler` and `computeDownsampler(id, maxSamplerate(id))` is within
relative error `2^-50` of `base / max`; for every rate `r` with
`minSamplerate(id) ≤ r ≤ maxSamplerate(id)` the value `c = computeDownsampler(id, r)` is
finite with `base / max * (1 - 2^-50) ≤ c ≤ maxDownsampler * (1 + 2^-50)` and
`c < maxDownsampler + 1/2`. -/
theorem binary64_computeDownsampler_bounds (l : ControlSamplerateLimits) (id : RecordLengthID)
    (hb1 : (2 : ℚ) ^ (-500 : ℤ) ≤ l.base) (hb2 : l.base ≤ 2 ^ 500)
    (hm1 : (2 : ℚ) ^ (-500 : ℤ) ≤ l.max) (hm2 : l.max ≤ 2 ^ 500)
    (hmd : 1 ≤ l.maxDownsampler) (hmd2 : l.maxDownsampler ≤ UINT_MAX)
    (hid : id < l.recordLengths.length) (hdiv : 0 < l.recordLengths[id].bufferDivider)
    (hdiv2 : l.recordLengths[id].bufferDivider ≤ UINT_MAX) :
    ∃ mn mx : ℚ, Binary64.minSamplerate l id = some (Value.fin false mn)
      ∧ Binary64.maxSamplerate l id = some (Value.fin false mx) ∧ 0 < mn
      ∧ (∃ c : ℚ, Binary64.computeDownsampler l id (Value.fin false mn)
            = some (Value.fin false c)
          ∧ |c - l.maxDownsampler| ≤ l.maxDownsampler * 2 ^ (-50 : ℤ))
      ∧ (∃ c : ℚ, Binary64.computeDownsampler l id (Value.fin false mx)
            = some (Value.fin false c)
          ∧ |c - l.base / l.max| ≤ l.base / l.max * 2 ^ (-50 : ℤ))
      ∧ ∀ r : ℚ, mn ≤ r → r ≤ mx →
          ∃ c : ℚ, Binary64.computeDownsampler l id (Value.fin false r)
              = some (Value.fin false c)
            ∧ l.base / l.max * (1 - 2 ^ (-50 : ℤ)) ≤ c
            ∧ c ≤ l.maxDownsampler * (1 + 2 ^ (-50 : ℤ))
            ∧ c < l.maxDownsampler + 1 / 2 := by
  have hbase0 : 0 < l.base := lt_of_lt_of_le (zpow_pos (by norm_num) _) hb1
  have hmax0 : 0 < l.max := lt_of_lt_of_le (zpow_pos (by norm_num) _) hm1
  obtain ⟨hdq, hdq'⟩ := natCast_bounds hmd hmd2
  obtain ⟨hbq, hbq'⟩ := natCast_bounds hdiv hdiv2
  have hd0 : (0 : ℚ) < l.maxDownsampler := lt_of_lt_of_le one_pos hdq
  have hbd0 : (0 : ℚ) < l.recordLengths[id].bufferDivider := lt_of_lt_of_le one_pos hbq
  obtain ⟨mn, emn, lmn, umn⟩ := div_div_ofNat_bounds l.base l.maxDownsampler
    l.recordLengths[id].bufferDivider (le_trans (by norm_num) hb1)
    (le_trans hb2 (by norm_num)) hmd hmd2 hdiv hdiv2
  obtain ⟨mx, emx, lmx, umx⟩ := div_ofNat_bounds l.max l.recordLengths[id].bufferDivider
    (le_trans (by norm_num) hm1) (le_trans hm2 (by norm_num)) hdiv hdiv2
  obtain ⟨q, eq, lq, uq⟩ := div_ofNat_bounds l.base l.recordLengths[id].bufferDivider
    (le_trans (by norm_num) hb1) (le_trans hb2 (by norm_num)) hdiv hdiv2
  have hYmn : 0 < l.base / l.maxDownsampler / l.recordLengths[id].bufferDivider :=
    div_pos (div_pos hbase0 hd0) hbd0
  have hYmx : 0 < l.max / l.recordLengths[id].bufferDivider := div_pos hmax0 hbd0
  have hX : 0 < l.base / l.recordLengths[id].bufferDivider := div_pos hbase0 hbd0
  have hmn0 : 0 < mn := lt_of_lt_of_le (mul_pos hYmn (by norm_num)) lmn
  have hmx0 : 0 < mx := lt_of_lt_of_le (mul_pos hYmx (by norm_num)) lmx
  have lmx' : l.max / l.recordLengths[id].bufferDivider * (1 - 2 ^ (-53 : ℤ)) ^ 2 ≤ mx :=
    le_trans (mul_le_mul_of_nonneg_left (by norm_num) (le_of_lt hYmx)) lmx
  have umx' : mx ≤ l.max / l.recordLengths[id].bufferDivider * (1 + 2 ^ (-53 : ℤ)) ^ 2 :=
    le_trans umx (mul_le_mul_of_nonneg_left (by norm_num) (le_of_lt hYmx))
  have hrmn : l.base / l.recordLengths[id].bufferDivider
      / (l.base / l.maxDownsampler / l.recordLengths[id].bufferDivider)
      = (l.maxDownsampler : ℚ) := by
    have := ne_of_gt hbase0
    field_simp
    ring
  have hrmx : l.base / l.recordLengths[id].bufferDivider
      / (l.max / l.recordLengths[id].bufferDivider) = l.base / l.max := by
    have := ne_of_gt hmax0
    field_simp
  have hlo : (2 : ℚ) ^ (-1000 : ℤ) ≤ l.base / l.max := by
    have h1 : (2 : ℚ) ^ (-500 : ℤ) / 2 ^ 500 ≤ l.base / l.max :=
      div_le_div₀ (le_of_lt hbase0) hb1 hmax0 hm2
    exact le_trans (by norm_num) h1
  have hhi : l.base / l.max ≤ 2 ^ 1000 := by
    have h1 : l.base / l.max ≤ 2 ^ 500 / (2 : ℚ) ^ (-500 : ℤ) :=
      div_le_div₀ (by norm_num) hb2 (by norm_num) hm1
    exact le_trans h1 (by norm_num)
  have hcompute : ∀ r : ℚ, Binary64.computeDownsampler l id (Value.fin false r)
      = some (div (Value.fin false q) (Value.fin false r)) := by
    intro r
    rw [binary64_computeDownsampler_eq l id _ hid, ofRat_of_nonneg _ (le_of_lt hbase0), eq]
  have hupper : ∀ r : ℚ, mn ≤ r →
      q / r ≤ l.maxDownsampler * ((1 + 2 ^ (-53 : ℤ)) / (1 - 2 ^ (-53 : ℤ)) ^ 2) := by
    intro r hr
    have h := div_le_ratio q r _ _ (1 + 2 ^ (-53 : ℤ)) ((1 - 2 ^ (-53 : ℤ)) ^ 2)
      (le_of_lt hX) hYmn (by norm_num) (by norm_num) uq (le_trans lmn hr)
    rwa [hrmn] at h
  have hlower : ∀ r : ℚ, 0 < r → r ≤ mx →
      l.base / l.max * ((1 - 2 ^ (-53 : ℤ)) / (1 + 2 ^ (-53 : ℤ)) ^ 2) ≤ q / r := by
    intro r hr0 hr
    have h := ratio_le_div q r _ (l.max / l.recordLengths[id].bufferDivider)
      (1 - 2 ^ (-53 : ℤ)) ((1 + 2 ^ (-53 : ℤ)) ^ 2)
      (le_of_lt hX) (by norm_num) hr0 lq (le_trans hr umx')
    rwa [hrmx] at h
  have hlowermn : (l.maxDownsampler : ℚ) * ((1 - 2 ^ (-53 : ℤ)) / (1 + 2 ^ (-53 : ℤ)) ^ 2)
      ≤ q / mn := by
    have h := ratio_le_div q mn _ (l.base / l.maxDownsampler / l.recordLengths[id].bufferDivider)
      (1 - 2 ^ (-53 : ℤ)) ((1 + 2 ^ (-53 : ℤ)) ^ 2)
      (le_of_lt hX) (by norm_num) hmn0 lq umn
    rwa [hrmn] at h
  have huppermx : q / mx
      ≤ l.base / l.max * ((1 + 2 ^ (-53 : ℤ)) / (1 - 2 ^ (-53 : ℤ)) ^ 2) := by
    have h := div_le_ratio q mx _ _ (1 + 2 ^ (-53 : ℤ)) ((1 - 2 ^ (-53 : ℤ)) ^ 2)
      (le_of_lt hX) hYmx (by norm_num) (by norm_num) uq lmx'
    rwa [hrmx] at h
  refine ⟨mn, mx, ?_, ?_, hmn0, ?_, ?_, ?_⟩
  · rw [binary64_minSamplerate_eq l id hid, ofRat_of_nonneg _ (le_of_lt hbase0), emn]
  · rw [binary64_maxSamplerate_eq l id hid, ofRat_of_nonneg _ (le_of_lt hmax0), emx]
  · obtain ⟨c, ec, lc, uc⟩ := div_between q mn l.maxDownsampler l.maxDownsampler hmn0
      (le_trans (by norm_num) hdq) (le_trans hdq' (by norm_num)) hlowermn
      (hupper mn le_rfl)
    exact ⟨c, by rw [hcompute, ec], abs_sub_le_of_rel c _ _ lc uc⟩
  · obtain ⟨c, ec, lc, uc⟩ := div_between q mx (l.base / l.max) (l.base / l.max) hmx0
      hlo hhi (hlower mx hmx0 le_rfl) huppermx
    exact ⟨c, by rw [hcompute, ec], abs_sub_le_of_rel c _ _ lc uc⟩
  · intro r hr1 hr2
    have hr0 : 0 < r := lt_of_lt_of_le hmn0 hr1
    obtain ⟨c, ec, lc, uc⟩ := div_between q r (l.base / l.max) l.maxDownsampler hr0
      hlo (le_trans hdq' (by norm_num)) (hlower r hr0 hr2) (hupper r hr1)
    refine ⟨c, by rw [hcompute, ec], lc, uc, ?_⟩
    have htol := natCast_mul_tolerance_lt hmd2
    have e : (l.maxDownsampler : ℚ) * (1 + 2 ^ (-50 : ℤ))
        = l.maxDownsampler + l.maxDownsampler * 2 ^ (-50 : ℤ) := by ring
    rw [e] at uc
    exact lt_of_le_of_lt uc (by linarith)

/-- C1, as stated, fails on the code: in the DSO-2250 single table, id 1 (divider 1),
downsampler 11, `samplerate(1, 11)` is the double `9090909.090909092` and
`computeDownsampler(1, 9090909.090909092)` is the double `10.999999999999998`
(`11 - 2^-49`), not 11. -/
theorem binary64_roundtrip_inexact :
    Binary64.samplerate ModelDSO2250.singleLimits 1 11
        = some (Value.fin false (4880644654545455 / 536870912))
      ∧ Binary64.computeDownsampler ModelDSO2250.singleLimits 1
          (Value.fin false (4880644654545455 / 536870912))
        = some (Value.fin false (6192449487634431 / 562949953421312))
      ∧ (6192449487634431 / 562949953421312 : ℚ) = 11 - 2 ^ (-49 : ℤ)
      ∧ (6192449487634431 / 562949953421312 : ℚ) ≠ 11 := by
  have s1 : div (Value.fin false 100000000) (Value.fin false ((11 : Nat) : ℚ))
      = Value.fin false (4880644654545455 / 536870912) := by
    rw [div_fin_eval 100000000 ((11 : Nat) : ℚ) 23 4880644654545455 (by norm_num) (by norm_num)
      (by norm_num) (by norm_num) (by norm_num) (by norm_num) (by norm_num)]
    norm_num
  have s2 : div (Value.fin false (4880644654545455 / 536870912))
      (Value.fin false ((1 : Nat) : ℚ)) = Value.fin false (4880644654545455 / 536870912) := by
    rw [div_fin_eval (4880644654545455 / 536870912) ((1 : Nat) : ℚ) 23 4880644654545455
      (by norm_num) (by norm_num) (by norm_num) (by norm_num) (by norm_num) (by norm_num)
      (by norm_num)]
    norm_num
  have s3 : div (Value.fin false 100000000) (Value.fin false ((1 : Nat) : ℚ))
      = Value.fin false 100000000 := by
    rw [div_fin_eval 100000000 ((1 : Nat) : ℚ) 26 6710886400000000 (by norm_num) (by norm_num)
      (by norm_num) (by norm_num) (by norm_num) (by norm_num) (by norm_num)]
    norm_num
  have s4 : div (Value.fin false 100000000) (Value.fin false (4880644654545455 / 536870912))
      = Value.fin false (6192449487634431 / 562949953421312) := by
    rw [div_fin_eval 100000000 (4880644654545455 / 536870912) 3 6192449487634431
      (by norm_num) (by norm_num) (by norm_num) (by norm_num) (by norm_num) (by norm_num)
      (by norm_num)]
    norm_num
  have hbase : ofRat ModelDSO2250.singleLimits.base = Value.fin false 100000000 :=
    ofRat_of_nonneg _ (by norm_num [ModelDSO2250.singleLimits, ModelDSO2250.specification,
      SamplerateTable.toLimits])
  refine ⟨?_, ?_, by norm_num, by norm_num⟩
  · rw [binary64_samplerate_eq _ 1 11 (by decide), hbase]
    show some (div (div (Value.fin false 100000000) (Value.fin false ((11 : Nat) : ℚ)))
      (Value.fin false ((1 : Nat) : ℚ))) = _
    rw [s1, s2]
  · rw [binary64_computeDownsampler_eq _ 1 _ (by decide), hbase]
    show some (div (div (Value.fin false 100000000) (Value.fin false ((1 : Nat) : ℚ)))
      (Value.fin false (4880644654545455 / 536870912))) = _
    rw [s3, s4]

/-- C1, amended, at the DSO-2250 single channel limits, id 1, downsampler 11. -/
theorem binary64_computeDownsampler_samplerate_roundtrip_witness :
    ∃ s c : ℚ, Binary64.samplerate ModelDSO2250.singleLimits 1 11 = some (Value.fin false s)
      ∧ Binary64.computeDownsampler ModelDSO2250.singleLimits 1 (Value.fin false s)
          = some (Value.fin false c)
      ∧ |c - ((11 : Nat) : ℚ)| ≤ ((11 : Nat) : ℚ) * 2 ^ (-50 : ℤ)
      ∧ round c = ((11 : Nat) : ℤ) :=
  binary64_computeDownsampler_samplerate_roundtrip ModelDSO2250.singleLimits 1 11
    (by norm_num [ModelDSO2250.singleLimits, ModelDSO2250.specification,
      SamplerateTable.toLimits])
    (by norm_num [ModelDSO2250.singleLimits, ModelDSO2250.specification,
      SamplerateTable.toLimits])
    (by decide) (by decide) (by decide) (by decide) (by decide)

/-- C4, as stated, fails: for the limits `base = 200e6`, `max = 100e6`,
`maxDownsampler = 4`, `recordLengths = [(10240, 1)]`, id 0 is in range with a positive
`bufferDivider` and `d = 1` lies in `[1, maxDownsampler]`, yet `samplerate(0, 1) = 200e6`
exceeds `maxSamplerate(0) = 100e6`, in exact and in binary64 arithmetic alike. -/
theorem samplerate_exceeds_maxSamplerate :
    (0 < baseAboveMaxLimits.recordLengths.length
      ∧ (baseAboveMaxLimits.recordLengths[0]?.map RecordLength.bufferDivider) = some 1
      ∧ 1 ≤ 1 ∧ 1 ≤ baseAboveMaxLimits.maxDownsampler
      ∧ baseAboveMaxLimits.samplerate 0 1 = some 200000000
      ∧ baseAboveMaxLimits.maxSamplerate 0 = some 100000000
      ∧ ¬ ((200000000 : ℚ) ≤ 100000000))
    ∧ Binary64.samplerate baseAboveMaxLimits 0 1 = some (Value.fin false 200000000)
    ∧ Binary64.maxSamplerate baseAboveMaxLimits 0 = some (Value.fin false 100000000) := by
  have s1 : div (Value.fin false 200000000) (Value.fin false ((1 : Nat) : ℚ))
      = Value.fin false 200000000 := by
    rw [div_fin_eval 200000000 ((1 : Nat) : ℚ) 27 6710886400000000 (by norm_num) (by norm_num)
      (by norm_num) (by norm_num) (by norm_num) (by norm_num) (by norm_num)]
    norm_num
  have s2 : div (Value.fin false 100000000) (Value.fin false ((1 : Nat) : ℚ))
      = Value.fin false 100000000 := by
    rw [div_fin_eval 100000000 ((1 : Nat) : ℚ) 26 6710886400000000 (by norm_num) (by norm_num)
      (by norm_num) (by norm_num) (by norm_num) (by norm_num) (by norm_num)]
    norm_num
  have hbase : ofRat baseAboveMaxLimits.base = Value.fin false 200000000 :=
    ofRat_of_nonneg _ (by norm_num [baseAboveMaxLimits])
  have hmax : ofRat baseAboveMaxLimits.max = Value.fin false 100000000 :=
    ofRat_of_nonneg _ (by norm_num [baseAboveMaxLimits])
  refine ⟨⟨by decide, by simp [baseAboveMaxLimits], by decide, by decide, ?_, ?_,
    by norm_num⟩, ?_, ?_⟩
  · simp [ControlSamplerateLimits.samplerate, baseAboveMaxLimits, divDouble]
  · simp [ControlSamplerateLimits.maxSamplerate, baseAboveMaxLimits, divDouble]
  · rw [binary64_samplerate_eq _ 0 1 (by decide), hbase]
    show some (div (div (Value.fin false 200000000) (Value.fin false ((1 : Nat) : ℚ)))
      (Value.fin false ((1 : Nat) : ℚ))) = _
    rw [s1, s1]
  · rw [binary64_maxSamplerate_eq _ 0 (by decide), hmax]
    show some (div (Value.fin false 100000000) (Value.fin false ((1 : Nat) : ℚ))) = _
    rw [s2]

theorem isFinite_250000000 : IsFinite 250000000 := by
  have h : |(250000000 : ℚ)| = 250000000 := abs_of_nonneg (by norm_num)
  unfold IsFinite
  rw [h]
  refine ⟨?_, by norm_num⟩
  rw [roundMagnitude_eq 250000000 27 8388608000000000 (by norm_num) (by norm_num)
    (by norm_num) (by norm_num) (by norm_num)]
  norm_num

/-- C4, amended, at the DSO-2250 multi channel limits, id 2, downsampler 1. -/
theorem binary64_samplerate_le_maxSamplerate_witness :
    ∃ s m : ℚ, Binary64.samplerate ModelDSO2250.multiLimits 2 1 = some (Value.fin false s)
      ∧ Binary64.maxSamplerate ModelDSO2250.multiLimits 2 = some (Value.fin false m)
      ∧ Binary64.maxSamplerate ModelDSO2250.multiLimits 2
          = some (div (ofRat ModelDSO2250.multiLimits.max)
              (ofNat (ModelDSO2250.multiLimits.recordLengths.get ⟨2, by decide⟩).bufferDivider))
      ∧ s ≤ m :=
  binary64_samplerate_le_maxSamplerate ModelDSO2250.multiLimits 2 1
    (by norm_num [ModelDSO2250.multiLimits, ModelDSO2250.specification,
      SamplerateTable.toLimits])
    (by norm_num [ModelDSO2250.multiLimits, ModelDSO2250.specification,
      SamplerateTable.toLimits])
    isFinite_250000000 (by decide) (by decide) (by decide) (by decide)

/-- C5, as stated, fails on the code: for the limits `base = 100e6`, `max = 100e6`,
`maxDownsampler = 3`, `recordLengths = [(UINT_MAX, 1000)]`, `minSamplerate(0)` is the
double `33333.33333333333` and `computeDownsampler(0, minSamplerate(0))` is the double
`3.0000000000000004` (`3 + 2^-51`), which is not `maxDownsampler` and exceeds it. -/
theorem binary64_computeDownsampler_exceeds_maxDownsampler :
    Binary64.minSamplerate thirdDownsamplerLimits 0
        = some (Value.fin false (2290649224533333 / 68719476736))
      ∧ Binary64.computeDownsampler thirdDownsamplerLimits 0
          (Value.fin false (2290649224533333 / 68719476736))
        = some (Value.fin false (6755399441055745 / 2251799813685248))
      ∧ (6755399441055745 / 2251799813685248 : ℚ) = 3 + 2 ^ (-51 : ℤ)
      ∧ (thirdDownsamplerLimits.maxDownsampler : ℚ)
          < 6755399441055745 / 2251799813685248 := by
  have s1 : div (Value.fin false 100000000) (Value.fin false ((3 : Nat) : ℚ))
      = Value.fin false (8947848533333333 / 268435456) := by
    rw [div_fin_eval 100000000 ((3 : Nat) : ℚ) 24 8947848533333333 (by norm_num) (by norm_num)
      (by norm_num) (by norm_num) (by norm_num) (by norm_num) (by norm_num)]
    norm_num
  have s2 : div (Value.fin false (8947848533333333 / 268435456))
      (Value.fin false ((1000 : Nat) : ℚ))
      = Value.fin false (2290649224533333 / 68719476736) := by
    rw [div_fin_eval (8947848533333333 / 268435456) ((1000 : Nat) : ℚ) 15 4581298449066666
      (by norm_num) (by norm_num) (by norm_num) (by norm_num) (by norm_num) (by norm_num)
      (by norm_num)]
    norm_num
  have s3 : div (Value.fin false 100000000) (Value.fin false ((1000 : Nat) : ℚ))
      = Value.fin false 100000 := by
    rw [div_fin_eval 100000000 ((1000 : Nat) : ℚ) 16 6871947673600000 (by norm_num)
      (by norm_num) (by norm_num) (by norm_num) (by norm_num) (by norm_num) (by norm_num)]
    norm_num
  have s4 : div (Value.fin false 100000) (Value.fin false (2290649224533333 / 68719476736))
      = Value.fin false (6755399441055745 / 2251799813685248) := by
    rw [div_fin_eval 100000 (2290649224533333 / 68719476736) 1 6755399441055745
      (by norm_num) (by norm_num) (by norm_num) (by norm_num) (by norm_num) (by norm_num)
      (by norm_num)]
    norm_num
  have hbase : ofRat thirdDownsamplerLimits.base = Value.fin false 100000000 :=
    ofRat_of_nonneg _ (by norm_num [thirdDownsamplerLimits])
  refine ⟨?_, ?_, by norm_num, by norm_num [thirdDownsamplerLimits]⟩
  · rw [binary64_minSamplerate_eq _ 0 (by decide), hbase]
    show some (div (div (Value.fin false 100000000) (Value.fin false ((3 : Nat) : ℚ)))
      (Value.fin false ((1000 : Nat) : ℚ))) = _
    rw [s1, s2]
  · rw [binary64_computeDownsampler_eq _ 0 _ (by decide), hbase]
    show some (div (div (Value.fin false 100000000) (Value.fin false ((1000 : Nat) : ℚ)))
      (Value.fin false (2290649224533333 / 68719476736))) = _
    rw [s3, s4]

/-- C5, amended, at the DSO-2250 multi channel limits, id 0 (divider 1000). -/
theorem binary64_computeDownsampler_bounds_witness :
    ∃ mn mx : ℚ, Binary64.minSamplerate ModelDSO2250.multiLimits 0 = some (Value.fin false mn)
      ∧ Binary64.maxSamplerate ModelDSO2250.multiLimits 0 = some (Value.fin false mx) ∧ 0 < mn
      ∧ (∃ c : ℚ, Binary64.computeDownsampler ModelDSO2250.multiLimits 0 (Value.fin false mn)
            = some (Value.fin false c)
          ∧ |c - ModelDSO2250.multiLimits.maxDownsampler|
              ≤ ModelDSO2250.multiLimits.maxDownsampler * 2 ^ (-50 : ℤ))
      ∧ (∃ c : ℚ, Binary64.computeDownsampler ModelDSO2250.multiLimits 0 (Value.fin false mx)
            = some (Value.fin false c)
          ∧ |c - ModelDSO2250.multiLimits.base / ModelDSO2250.multiLimits.max|
              ≤ ModelDSO2250.multiLimits.base / ModelDSO2250.multiLimits.max
                  * 2 ^ (-50 : ℤ))
      ∧ ∀ r : ℚ, mn ≤ r → r ≤ mx →
          ∃ c : ℚ, Binary64.computeDownsampler ModelDSO2250.multiLimits 0 (Value.fin false r)
              = some (Value.fin false c)
            ∧ ModelDSO2250.multiLimits.base / ModelDSO2250.multiLimits.max
                * (1 - 2 ^ (-50 : ℤ)) ≤ c
            ∧ c ≤ ModelDSO2250.multiLimits.maxDownsampler * (1 + 2 ^ (-50 : ℤ))
            ∧ c < ModelDSO2250.multiLimits.maxDownsampler + 1 / 2 :=
  binary64_computeDownsampler_bounds ModelDSO2250.multiLimits 0
    (by norm_num [ModelDSO2250.multiLimits, ModelDSO2250.specification,
      SamplerateTable.toLimits])
    (by norm_num [ModelDSO2250.multiLimits, ModelDSO2250.specification,
      SamplerateTable.toLimits])
    (by norm_num [ModelDSO2250.multiLimits, ModelDSO2250.specification,
      SamplerateTable.toLimits])
    (by norm_num [ModelDSO2250.multiLimits, ModelDSO2250.specification,
      SamplerateTable.toLimits])
    (by decide) (by decide) (by decide) (by decide) (by decide)

end Binary64Lemmas
